import Mathlib

/-!
Verification of the sync-mcp-config repository: a shallow embedding of its
JSON data model, converter layer (BaseConverter and the per-tool
converters), master-config store (ConfigManager), backup retention
(BackupManager) and sync engine (SyncEngine), with theorems settling the
specification claims.

JavaScript objects parsed from JSON are modelled as ordered association
lists of string keys (a parsed object never repeats a key, so first-match
lookup coincides with property access), arrays as lists, and numbers as
integers (no claim depends on non-integral numerics). A property whose
value is the JavaScript undefined is modelled as an absent key, matching
both property reads and JSON.stringify, which drops undefined-valued
properties.
-/

/- The JSON value model: object fields keep their textual/insertion
order, which JSON.stringify preserves. -/
mutual
/-- A JSON value as the repository manipulates it. The element and field
sequences are their own inductives (rather than List) so that recursion
over documents stays structural. -/
inductive Json where
  | null : Json
  | bool (b : Bool) : Json
  | num (n : Int) : Json
  | str (s : String) : Json
  | arr (elems : JsonElems) : Json
  | obj (fields : JsonFields) : Json
deriving DecidableEq

inductive JsonElems where
  | nil : JsonElems
  | cons (hd : Json) (tl : JsonElems) : JsonElems
deriving DecidableEq

inductive JsonFields where
  | nil : JsonFields
  | cons (key : String) (val : Json) (tl : JsonFields) : JsonFields
deriving DecidableEq
end

/-- Object fields as a Lean list. -/
def JsonFields.toList : JsonFields → List (String × Json)
  | .nil => []
  | .cons k v tl => (k, v) :: tl.toList

/-- Object fields from a Lean list. -/
def JsonFields.ofList : List (String × Json) → JsonFields
  | [] => .nil
  | (k, v) :: tl => .cons k v (JsonFields.ofList tl)

/-- Array elements as a Lean list. -/
def JsonElems.toList : JsonElems → List Json
  | .nil => []
  | .cons x tl => x :: tl.toList

/-- Array elements from a Lean list. -/
def JsonElems.ofList : List Json → JsonElems
  | [] => .nil
  | x :: tl => .cons x (JsonElems.ofList tl)

/-- A JSON object literal over a field list. -/
def jObj (fields : List (String × Json)) : Json :=
  Json.obj (JsonFields.ofList fields)

/-- A JSON array literal over an element list. -/
def jArr (elems : List Json) : Json :=
  Json.arr (JsonElems.ofList elems)

@[simp]
theorem JsonFields.toList_ofList_fields (l : List (String × Json)) :
    (JsonFields.ofList l).toList = l := by
  induction l with
  | nil => rfl
  | cons hd tl ih => cases hd; simp [JsonFields.ofList, JsonFields.toList, ih]

@[simp]
theorem JsonElems.toList_ofList_elems (l : List Json) :
    (JsonElems.ofList l).toList = l := by
  induction l with
  | nil => rfl
  | cons hd tl ih => simp [JsonElems.ofList, JsonElems.toList, ih]

/-- Property read `value[key]` on a JavaScript value: only plain objects
yield properties here (index/char properties of arrays and strings are
modelled by jsEntries below where Object.entries is used). -/
def objGet (j : Json) (key : String) : Option Json :=
  match j with
  | .obj fields => fields.toList.lookup key
  | _ => none

@[simp]
theorem objGet_jObj (l : List (String × Json)) (key : String) :
    objGet (jObj l) key = l.lookup key := by
  simp [objGet, jObj]

/-- JavaScript truthiness of a property value; `none` is `undefined`. -/
def jsTruthy : Option Json → Bool
  | none => false
  | some .null => false
  | some (.bool b) => b
  | some (.num n) => n != 0
  | some (.str s) => s != ""
  | some (.arr _) => true
  | some (.obj _) => true

/-- Object.entries of a JavaScript value: fields of an object, indexed
elements of an array, indexed one-character strings of a string, and
nothing for primitives. -/
def jsEntries : Json → List (String × Json)
  | .obj fields => fields.toList
  | .arr xs => (xs.toList.enum).map (fun p => (toString p.1, p.2))
  | .str s => (s.data.enum).map (fun p => (toString p.1, Json.str (String.singleton p.2)))
  | _ => []

@[simp]
theorem jsEntries_jObj (l : List (String × Json)) : jsEntries (jObj l) = l := by
  simp [jsEntries, jObj]

/-- Deduplication as a JS Set performs it: first occurrences kept, in
order, given the keys already seen. -/
def dedupKeysAux (seen : List String) : List String → List String
  | [] => []
  | k :: rest =>
      if seen.contains k then dedupKeysAux seen rest
      else k :: dedupKeysAux (k :: seen) rest

/-- Array.from(new Set(keys)). -/
def dedupKeys (keys : List String) : List String :=
  dedupKeysAux [] keys

/-- Keys of Object.keys over a servers value (deduplicated as a JS Set is,
keeping first occurrences). -/
def jsKeys (j : Json) : List String :=
  dedupKeys ((jsEntries j).map Prod.fst)

/-- `\x7b...obj, key: v\x7d`: replace the key in place when present,
append it otherwise (JavaScript object-literal override semantics). -/
def setKey (fields : List (String × Json)) (key : String) (v : Json) :
    List (String × Json) :=
  if (fields.map Prod.fst).contains key then
    fields.map (fun kv => if kv.1 = key then (key, v) else kv)
  else
    fields ++ [(key, v)]

/-- `delete obj[key]` (a parsed object holds each key once). -/
def removeKey (fields : List (String × Json)) (key : String) :
    List (String × Json) :=
  fields.filter (fun kv => !(kv.1 == key))

/-- JSON string escaping as JSON.stringify performs it for the characters
the repository's data can contain. -/
def jsonEscapeChar (c : Char) : String :=
  if c = '\"' then "\\\"" else if c = '\\' then "\\\\" else String.singleton c

/-- A JSON string literal. -/
def jsonQuote (s : String) : String :=
  "\"" ++ String.join (s.data.map jsonEscapeChar) ++ "\""

/-- Indentation for JSON.stringify(data, null, 2). -/
def indentSpaces (depth : Nat) : String :=
  String.join (List.replicate (2 * depth) " ")

mutual
/-- JSON.stringify(v): compact serialization preserving object field
order, as BaseConverter.detectChanges compares entries. -/
def serialize : Json → String
  | .null => "null"
  | .bool b => if b then "true" else "false"
  | .num n => toString n
  | .str s => jsonQuote s
  | .arr xs => "[" ++ serializeElems xs ++ "]"
  | .obj kvs => "\x7b" ++ serializeFields kvs ++ "\x7d"

/-- Comma-joined serialized array elements. -/
def serializeElems : JsonElems → String
  | .nil => ""
  | .cons x .nil => serialize x
  | .cons x tl => serialize x ++ "," ++ serializeElems tl

/-- Comma-joined serialized key-value fields. -/
def serializeFields : JsonFields → String
  | .nil => ""
  | .cons k v .nil => jsonQuote k ++ ":" ++ serialize v
  | .cons k v tl => jsonQuote k ++ ":" ++ serialize v ++ "," ++ serializeFields tl
end

mutual
/-- JSON.stringify(data, null, 2): the pretty serialization
FileUtils.writeJson persists. -/
def serializePretty : Json → Nat → String
  | .null, _ => "null"
  | .bool b, _ => if b then "true" else "false"
  | .num n, _ => toString n
  | .str s, _ => jsonQuote s
  | .arr .nil, _ => "[]"
  | .arr xs, depth =>
      "[\n" ++ serializePrettyElems xs (depth + 1) ++ "\n" ++ indentSpaces depth ++ "]"
  | .obj .nil, _ => "\x7b\x7d"
  | .obj kvs, depth =>
      "\x7b\n" ++ serializePrettyFields kvs (depth + 1) ++ "\n" ++ indentSpaces depth ++ "\x7d"

/-- Newline-joined indented pretty array elements. -/
def serializePrettyElems : JsonElems → Nat → String
  | .nil, _ => ""
  | .cons x .nil, depth => indentSpaces depth ++ serializePretty x depth
  | .cons x tl, depth =>
      indentSpaces depth ++ serializePretty x depth ++ ",\n" ++
        serializePrettyElems tl depth

/-- Newline-joined indented pretty object fields. -/
def serializePrettyFields : JsonFields → Nat → String
  | .nil, _ => ""
  | .cons k v .nil, depth =>
      indentSpaces depth ++ jsonQuote k ++ ": " ++ serializePretty v depth
  | .cons k v tl, depth =>
      indentSpaces depth ++ jsonQuote k ++ ": " ++ serializePretty v depth ++ ",\n" ++
        serializePrettyFields tl depth
end

/-! ## Canonical record model (src/types, ConfigManager schema shapes) -/

/-- GlobalSettings of the master record (types.ts): two required flags and
two optional policy fields. -/
structure GlobalSettings where
  backupEnabled : Bool
  syncOnChange : Bool
  backupRetentionCount : Option Int
  excludeTools : Option (List String)
deriving DecidableEq, Repr

/-- MasterConfig (types.ts): server entries are kept as the JSON objects
the converters build and the Zod schema validates. -/
structure MasterConfig where
  version : String
  lastUpdated : String
  mcpServers : List (String × Json)
  globalSettings : GlobalSettings

/-! ## BaseConverter (src/converters/BaseConverter.ts) -/

/-- typeof v is the string object and v is not null (JavaScript arrays
have typeof object). -/
def isJsObjectType : Json → Bool
  | .obj _ => true
  | .arr _ => true
  | _ => false

/-- One field of normalizeMCPServerConfig guarded by presence
(continuing when the property is undefined). -/
def keepDefined (config : Json) (key : String) : List (String × Json) :=
  match objGet config key with
  | some v => [(key, v)]
  | none => []

/-- One field of normalizeMCPServerConfig guarded by JavaScript
truthiness. -/
def keepTruthy (config : Json) (key : String) : List (String × Json) :=
  match objGet config key with
  | some v => if jsTruthy (some v) then [(key, v)] else []
  | none => []

/-- BaseConverter.normalizeMCPServerConfig: command copied always (an
undefined command is an absent key after stringify), args, env,
alwaysAllow, autoApprove, transport, type and url copied when truthy,
disabled copied when not undefined. -/
def normalizeMCPServerConfig (config : Json) : Json :=
  jObj
    (keepDefined config "command" ++
     keepTruthy config "args" ++
     keepTruthy config "env" ++
     keepDefined config "disabled" ++
     keepTruthy config "alwaysAllow" ++
     keepTruthy config "autoApprove" ++
     keepTruthy config "transport" ++
     keepTruthy config "type" ++
     keepTruthy config "url")

/-- BaseConverter.isValidMCPServerConfig, check for check: object typeof,
command a non-empty string, args an array when present, env of object
typeof when present, disabled boolean when present, allow lists arrays
when present, transport in the enum when present. No check reads url. -/
def isValidMCPServerConfig (config : Json) : Bool :=
  isJsObjectType config &&
  (match objGet config "command" with
    | some (.str s) => s != ""
    | _ => false) &&
  (match objGet config "args" with
    | none => true
    | some (.arr _) => true
    | some _ => false) &&
  (match objGet config "env" with
    | none => true
    | some v => isJsObjectType v) &&
  (match objGet config "disabled" with
    | none => true
    | some (.bool _) => true
    | some _ => false) &&
  (match objGet config "alwaysAllow" with
    | none => true
    | some (.arr _) => true
    | some _ => false) &&
  (match objGet config "autoApprove" with
    | none => true
    | some (.arr _) => true
    | some _ => false) &&
  (match objGet config "transport" with
    | none => true
    | some (.str s) => s == "stdio" || s == "sse" || s == "http"
    | some _ => false)

/-- The change report of BaseConverter.detectChanges. -/
structure Changes where
  added : List String
  modified : List String
  removed : List String
deriving DecidableEq, Repr

/-- BaseConverter.detectChanges over a converter's extractMCPServers:
added and removed by key difference, modified where the JSON.stringify
serializations of the two entries differ. -/
def detectChanges (extract : Json → Json) (oldConfig newConfig : Json) : Changes :=
  let oldServers := extract oldConfig
  let newServers := extract newConfig
  let oldKeys := jsKeys oldServers
  let newKeys := jsKeys newServers
  { added := newKeys.filter (fun k => !(oldKeys.contains k))
    modified := (oldKeys.filter (fun k => newKeys.contains k)).filter
      (fun k =>
        serialize (((jsEntries oldServers).lookup k).getD .null) !=
        serialize (((jsEntries newServers).lookup k).getD .null))
    removed := oldKeys.filter (fun k => !(newKeys.contains k)) }

/-! ## The six target adapters -/

/-- The registered tool identifiers (types.ts ToolType). -/
inductive Tool where
  | claude
  | claudeCode
  | cline
  | roo
  | cursor
  | vscode
deriving DecidableEq, Repr

/-- The ToolType string of each tool. -/
def toolName : Tool → String
  | .claude => "claude"
  | .claudeCode => "claude-code"
  | .cline => "cline"
  | .roo => "roo"
  | .cursor => "cursor"
  | .vscode => "vscode"

/-- The provenance text each convertToMaster stamps into metadata. -/
def importDescription : Tool → String
  | .claude => "Imported from Claude Desktop"
  | .claudeCode => "Imported from Claude Code"
  | .cline => "Imported from Cline"
  | .roo => "Imported from Roo Code"
  | .cursor => "Imported from Cursor"
  | .vscode => "Imported from VS Code"

/-- The spread-with-metadata step of every convertToMaster. -/
def withImportMetadata (tool : Tool) (j : Json) : Json :=
  jObj
    (setKey (jsEntries j) "metadata"
      (jObj [("description", Json.str (importDescription tool))]))

/-- The shared convertFromMaster loop body: enabled (not
truthy-disabled) master entries, each normalized. -/
def enabledNormalizedServers (m : MasterConfig) : List (String × Json) :=
  (m.mcpServers.filter (fun kv => !(jsTruthy (objGet kv.2 "disabled")))).map
    (fun kv => (kv.1, normalizeMCPServerConfig kv.2))

/-- The constant master record skeleton every convertToMaster builds
around the imported servers. -/
def importedMaster (now : String) (servers : List (String × Json)) : MasterConfig :=
  { version := "1.0.0"
    lastUpdated := now
    mcpServers := servers
    globalSettings :=
      { backupEnabled := true
        syncOnChange := true
        backupRetentionCount := none
        excludeTools := none } }

namespace ClaudeDesktopConverter

/-- ClaudeDesktopConverter.convertFromMaster: mcpServers always present,
enabled entries normalized. -/
def convertFromMaster (m : MasterConfig) : Json :=
  jObj [("mcpServers", jObj (enabledNormalizedServers m))]

/-- ClaudeDesktopConverter.convertToMaster: a truthy mcpServers value has
every entry imported (no validity filter), normalized plus metadata. -/
def convertToMaster (now : String) (toolConfig : Json) : MasterConfig :=
  let servers :=
    if jsTruthy (objGet toolConfig "mcpServers") then
      (jsEntries ((objGet toolConfig "mcpServers").getD .null)).map
        (fun kv => (kv.1, withImportMetadata .claude (normalizeMCPServerConfig kv.2)))
    else []
  importedMaster now servers

/-- ClaudeDesktopConverter.extractMCPServers: the raw mcpServers value,
or an empty object when falsy. -/
def extractMCPServers (config : Json) : Json :=
  if jsTruthy (objGet config "mcpServers") then (objGet config "mcpServers").getD .null
  else jObj []

/-- ClaudeDesktopConverter.writeConfig merge step: spread the current
live file (an empty object when reading threw) and overwrite its
mcpServers key with the projected value; an undefined projected value is
a key JSON.stringify drops. Returns the persisted document. -/
def writeConfigMerge (readResult : Except String Json) (config : Json) : Json :=
  let existing := match readResult with | .ok v => jsEntries v | .error _ => []
  match objGet config "mcpServers" with
  | some v => jObj (setKey existing "mcpServers" v)
  | none => jObj (removeKey existing "mcpServers")

end ClaudeDesktopConverter

namespace ClaudeCodeConverter

/-- ClaudeCodeConverter.convertFromMaster. -/
def convertFromMaster (m : MasterConfig) : Json :=
  jObj [("mcpServers", jObj (enabledNormalizedServers m))]

/-- ClaudeCodeConverter.convertToMaster (no validity filter). -/
def convertToMaster (now : String) (toolConfig : Json) : MasterConfig :=
  let servers :=
    if jsTruthy (objGet toolConfig "mcpServers") then
      (jsEntries ((objGet toolConfig "mcpServers").getD .null)).map
        (fun kv => (kv.1, withImportMetadata .claudeCode (normalizeMCPServerConfig kv.2)))
    else []
  importedMaster now servers

/-- ClaudeCodeConverter.extractMCPServers. -/
def extractMCPServers (config : Json) : Json :=
  if jsTruthy (objGet config "mcpServers") then (objGet config "mcpServers").getD .null
  else jObj []

/-- ClaudeCodeConverter.writeConfig merge step. -/
def writeConfigMerge (readResult : Except String Json) (config : Json) : Json :=
  let existing := match readResult with | .ok v => jsEntries v | .error _ => []
  match objGet config "mcpServers" with
  | some v => jObj (setKey existing "mcpServers" v)
  | none => jObj (removeKey existing "mcpServers")

end ClaudeCodeConverter

namespace CursorConverter

/-- CursorConverter.convertFromMaster. -/
def convertFromMaster (m : MasterConfig) : Json :=
  jObj [("mcpServers", jObj (enabledNormalizedServers m))]

/-- CursorConverter.convertToMaster (no validity filter). -/
def convertToMaster (now : String) (toolConfig : Json) : MasterConfig :=
  let servers :=
    if jsTruthy (objGet toolConfig "mcpServers") then
      (jsEntries ((objGet toolConfig "mcpServers").getD .null)).map
        (fun kv => (kv.1, withImportMetadata .cursor (normalizeMCPServerConfig kv.2)))
    else []
  importedMaster now servers

/-- CursorConverter.extractMCPServers. -/
def extractMCPServers (config : Json) : Json :=
  if jsTruthy (objGet config "mcpServers") then (objGet config "mcpServers").getD .null
  else jObj []

/-- CursorConverter.writeConfig merge step. -/
def writeConfigMerge (readResult : Except String Json) (config : Json) : Json :=
  let existing := match readResult with | .ok v => jsEntries v | .error _ => []
  match objGet config "mcpServers" with
  | some v => jObj (setKey existing "mcpServers" v)
  | none => jObj (removeKey existing "mcpServers")

end CursorConverter

namespace RooCodeConverter

/-- RooCodeConverter.convertFromMaster. -/
def convertFromMaster (m : MasterConfig) : Json :=
  jObj [("mcpServers", jObj (enabledNormalizedServers m))]

/-- RooCodeConverter.convertToMaster (no validity filter). -/
def convertToMaster (now : String) (toolConfig : Json) : MasterConfig :=
  let servers :=
    if jsTruthy (objGet toolConfig "mcpServers") then
      (jsEntries ((objGet toolConfig "mcpServers").getD .null)).map
        (fun kv => (kv.1, withImportMetadata .roo (normalizeMCPServerConfig kv.2)))
    else []
  importedMaster now servers

/-- RooCodeConverter.extractMCPServers. -/
def extractMCPServers (config : Json) : Json :=
  if jsTruthy (objGet config "mcpServers") then (objGet config "mcpServers").getD .null
  else jObj []

end RooCodeConverter

namespace ClineConverter

/-- ClineConverter.convertFromMaster (the ClineConverter class appended
inside src/src/converters/__tests__/ClaudeCodeConverter.test.ts):
mcpServers always present, enabled (not truthy-disabled) entries
normalized. -/
def convertFromMaster (m : MasterConfig) : Json :=
  jObj [("mcpServers", jObj (enabledNormalizedServers m))]

/-- ClineConverter.convertToMaster: a truthy mcpServers value has every
entry imported (no validity filter), normalized plus the Imported from
Cline metadata. -/
def convertToMaster (now : String) (toolConfig : Json) : MasterConfig :=
  let servers :=
    if jsTruthy (objGet toolConfig "mcpServers") then
      (jsEntries ((objGet toolConfig "mcpServers").getD .null)).map
        (fun kv => (kv.1, withImportMetadata .cline (normalizeMCPServerConfig kv.2)))
    else []
  importedMaster now servers

/-- ClineConverter.extractMCPServers: the raw mcpServers value, or an
empty object when falsy. -/
def extractMCPServers (config : Json) : Json :=
  if jsTruthy (objGet config "mcpServers") then (objGet config "mcpServers").getD .null
  else jObj []

end ClineConverter

namespace VSCodeConverter

/-- VSCodeConverter.convertFromMaster: the mcp.servers key is set only
when at least one enabled server exists. -/
def convertFromMaster (m : MasterConfig) : Json :=
  let mcpServers := enabledNormalizedServers m
  if mcpServers.length > 0 then jObj [("mcp.servers", jObj mcpServers)]
  else jObj []

/-- VSCodeConverter.convertToMaster: entries failing
isValidMCPServerConfig are skipped; the rest are normalized plus
metadata. -/
def convertToMaster (now : String) (toolConfig : Json) : MasterConfig :=
  let mcpServers := objGet toolConfig "mcp.servers"
  let servers :=
    if jsTruthy mcpServers && isJsObjectType (mcpServers.getD .null) then
      ((jsEntries (mcpServers.getD .null)).filter
          (fun kv => isValidMCPServerConfig kv.2)).map
        (fun kv => (kv.1, withImportMetadata .vscode (normalizeMCPServerConfig kv.2)))
    else []
  importedMaster now servers

/-- VSCodeConverter.extractMCPServers: the valid entries of a truthy
object-typed mcp.servers value, unnormalized. -/
def extractMCPServers (config : Json) : Json :=
  let mcpServers := objGet config "mcp.servers"
  if jsTruthy mcpServers && isJsObjectType (mcpServers.getD .null) then
    jObj ((jsEntries (mcpServers.getD .null)).filter
      (fun kv => isValidMCPServerConfig kv.2))
  else jObj []

/-- VSCodeConverter.writeConfig merge step: set mcp.servers when the
projected value is truthy with at least one key, delete the key
otherwise. -/
def writeConfigMerge (readResult : Except String Json) (config : Json) : Json :=
  let existing := match readResult with | .ok v => jsEntries v | .error _ => []
  let servers := objGet config "mcp.servers"
  if jsTruthy servers && (jsKeys (servers.getD .null)).length > 0 then
    jObj (setKey existing "mcp.servers" (servers.getD .null))
  else
    jObj (removeKey existing "mcp.servers")

end VSCodeConverter

/-- Dispatch convertFromMaster by tool. -/
def convertFromMasterOf : Tool → MasterConfig → Json
  | .claude => ClaudeDesktopConverter.convertFromMaster
  | .claudeCode => ClaudeCodeConverter.convertFromMaster
  | .cline => ClineConverter.convertFromMaster
  | .roo => RooCodeConverter.convertFromMaster
  | .cursor => CursorConverter.convertFromMaster
  | .vscode => VSCodeConverter.convertFromMaster

/-- Dispatch convertToMaster by tool. -/
def convertToMasterOf : Tool → String → Json → MasterConfig
  | .claude => ClaudeDesktopConverter.convertToMaster
  | .claudeCode => ClaudeCodeConverter.convertToMaster
  | .cline => ClineConverter.convertToMaster
  | .roo => RooCodeConverter.convertToMaster
  | .cursor => CursorConverter.convertToMaster
  | .vscode => VSCodeConverter.convertToMaster

/-- Dispatch extractMCPServers by tool. -/
def extractMCPServersOf : Tool → Json → Json
  | .claude => ClaudeDesktopConverter.extractMCPServers
  | .claudeCode => ClaudeCodeConverter.extractMCPServers
  | .cline => ClineConverter.extractMCPServers
  | .roo => RooCodeConverter.extractMCPServers
  | .cursor => CursorConverter.extractMCPServers
  | .vscode => VSCodeConverter.extractMCPServers

/-! ## FileUtils.writeJson and the Zod master schema (ConfigManager) -/

/-- path.dirname: the path up to the last separator. -/
def dirName (p : String) : String :=
  String.intercalate "/" ((p.splitOn "/").dropLast)

/-- The filesystem effects the master store emits (the narrow file-access
surface of FileUtils). -/
inductive FsOp where
  | ensureDir (dir : String)
  | writeFile (path : String) (content : String)
  | rename (src : String) (dst : String)
deriving DecidableEq, Repr

/-- FileUtils.writeJson(path, data): ensure the parent directory, then a
single direct fs.writeFile of the pretty serialization. No temporary
file and no rename. -/
def writeJsonOps (path : String) (data : Json) : List FsOp :=
  [.ensureDir (dirName path), .writeFile path (serializePretty data 0)]

/-- z.string() for one value. -/
def zodString : Json → Option Json
  | .str s => some (Json.str s)
  | _ => none

/-- z.array(z.string()). -/
def zodStringArray : Json → Option Json
  | .arr xs => if xs.toList.all (fun x => match x with | .str _ => true | _ => false)
      then some (Json.arr xs) else none
  | _ => none

/-- z.record(z.string()): a plain object whose values are all strings
(Zod distinguishes arrays from objects and rejects them here). -/
def zodStringRecord : Json → Option Json
  | .obj kvs => if kvs.toList.all (fun kv => match kv.2 with | .str _ => true | _ => false)
      then some (Json.obj kvs) else none
  | _ => none

/-- z.boolean(). -/
def zodBoolean : Json → Option Json
  | .bool b => some (Json.bool b)
  | _ => none

/-- z.enum over the given options. -/
def zodEnum (options : List String) : Json → Option Json
  | .str s => if options.contains s then some (Json.str s) else none
  | _ => none

/-- An optional field of a Zod object schema: absent stays absent,
present must parse. Returns the fields the stripped output keeps. -/
def zodOptionalField (fields : List (String × Json)) (key : String)
    (check : Json → Option Json) : Option (List (String × Json)) :=
  match fields.lookup key with
  | none => some []
  | some v => match check v with
    | some v2 => some [(key, v2)]
    | none => none

/-- The metadata sub-schema: optional description string and tags string
array, stripped. -/
def zodMetadata : Json → Option Json
  | .obj kvs => do
      let description ← zodOptionalField kvs.toList "description" zodString
      let tags ← zodOptionalField kvs.toList "tags" zodStringArray
      some (jObj (description ++ tags))
  | _ => none

/-- MCPServerConfigSchema.parse (ConfigManager): command a string of
length at least 1, every other field optional, url unconditionally
optional; output stripped to the schema keys in shape order. -/
def zodParseMCPServerConfig (j : Json) : Option Json :=
  match j with
  | .obj kvs => do
      let command ← match kvs.toList.lookup "command" with
        | some (.str s) => if s.length ≥ 1 then some s else none
        | _ => none
      let args ← zodOptionalField kvs.toList "args" zodStringArray
      let env ← zodOptionalField kvs.toList "env" zodStringRecord
      let disabled ← zodOptionalField kvs.toList "disabled" zodBoolean
      let alwaysAllow ← zodOptionalField kvs.toList "alwaysAllow" zodStringArray
      let autoApprove ← zodOptionalField kvs.toList "autoApprove" zodStringArray
      let transport ← zodOptionalField kvs.toList "transport" (zodEnum ["stdio", "sse", "http"])
      let type2 ← zodOptionalField kvs.toList "type" (zodEnum ["sse", "http", "stdio"])
      let url ← zodOptionalField kvs.toList "url" zodString
      let metadata ← zodOptionalField kvs.toList "metadata" zodMetadata
      some (jObj ([("command", Json.str command)] ++ args ++ env ++ disabled ++
        alwaysAllow ++ autoApprove ++ transport ++ type2 ++ url ++ metadata))
  | _ => none

/-- GlobalSettingsSchema.parse: two required booleans, an optional
positive integer retention count, an optional string array of excluded
tools. -/
def zodParseGlobalSettings (j : Json) : Option GlobalSettings :=
  match j with
  | .obj kvs => do
      let backupEnabled ← match kvs.toList.lookup "backupEnabled" with
        | some (.bool b) => some b
        | _ => none
      let syncOnChange ← match kvs.toList.lookup "syncOnChange" with
        | some (.bool b) => some b
        | _ => none
      let backupRetentionCount ← match kvs.toList.lookup "backupRetentionCount" with
        | none => some none
        | some (.num n) => if n ≥ 1 then some (some n) else none
        | some _ => none
      let excludeTools ← match kvs.toList.lookup "excludeTools" with
        | none => some none
        | some (.arr xs) =>
            if xs.toList.all (fun x => match x with | .str _ => true | _ => false)
            then some (some (xs.toList.filterMap
              (fun x => match x with | .str s => some s | _ => none)))
            else none
        | some _ => none
      some { backupEnabled := backupEnabled, syncOnChange := syncOnChange,
             backupRetentionCount := backupRetentionCount, excludeTools := excludeTools }
  | _ => none

/-- MasterConfigSchema.parse: version and lastUpdated strings, mcpServers
a record of entry-schema values, globalSettings as above. -/
def zodParseMasterConfig (j : Json) : Option MasterConfig :=
  match j with
  | .obj kvs => do
      let version ← match kvs.toList.lookup "version" with
        | some (.str s) => some s
        | _ => none
      let lastUpdated ← match kvs.toList.lookup "lastUpdated" with
        | some (.str s) => some s
        | _ => none
      let mcpServers ← match kvs.toList.lookup "mcpServers" with
        | some (.obj entries) =>
            entries.toList.mapM
              (fun kv => (zodParseMCPServerConfig kv.2).map (fun v => (kv.1, v)))
        | _ => none
      let globalSettings ← match kvs.toList.lookup "globalSettings" with
        | some g => zodParseGlobalSettings g
        | none => none
      some { version := version, lastUpdated := lastUpdated,
             mcpServers := mcpServers, globalSettings := globalSettings }
  | _ => none

/-- The JSON object a GlobalSettings value serializes to (optional keys
omitted when absent, as Zod output). -/
def globalSettingsToJson (g : GlobalSettings) : Json :=
  jObj
    ([("backupEnabled", Json.bool g.backupEnabled),
      ("syncOnChange", Json.bool g.syncOnChange)] ++
     (match g.backupRetentionCount with
       | some n => [("backupRetentionCount", Json.num n)]
       | none => []) ++
     (match g.excludeTools with
       | some l => [("excludeTools", jArr (l.map Json.str))]
       | none => []))

/-- The JSON object a MasterConfig serializes to. -/
def masterToJson (m : MasterConfig) : Json :=
  jObj
    [("version", Json.str m.version),
     ("lastUpdated", Json.str m.lastUpdated),
     ("mcpServers", jObj m.mcpServers),
     ("globalSettings", globalSettingsToJson m.globalSettings)]

/-- ConfigManager state: the master path and the in-memory cache. -/
structure ConfigManagerState where
  configPath : String
  config : Option MasterConfig

/-- ConfigManager.saveConfig: re-validate through the Zod schema, stamp
lastUpdated to the current time, persist through FileUtils.writeJson and
update the cache. Returns the new state and the emitted filesystem
operations. -/
def saveConfig (now : String) (st : ConfigManagerState) (config : MasterConfig) :
    Except String (ConfigManagerState × List FsOp) :=
  match zodParseMasterConfig (masterToJson config) with
  | none => .error "Invalid master config"
  | some validated =>
      let stamped := { validated with lastUpdated := now }
      .ok ({ st with config := some stamped },
           writeJsonOps st.configPath (masterToJson stamped))

/-! ## BackupManager (src/core/BackupManager.ts) -/

/-- The constructor default: `maxBackups = 10`. -/
def defaultMaxBackups : Nat := 10

/-- The CLI constructs every BackupManager as `new BackupManager()`: the
backup directory and retention count both come from the defaults, never
from the master record's globalSettings. -/
def cliBackupManagerMaxBackups : Nat := defaultMaxBackups

/-- listBackups reconstructs a timestamp from the sanitized filename
fragment by turning every hyphen back into a colon. -/
def restoreTimestamp (backupId : String) : String :=
  String.mk (backupId.data.map (fun c => if c = '-' then ':' else c))

/-- Lexicographic less-or-equal on character sequences, by code point. -/
def charListLE : List Char → List Char → Bool
  | [], _ => true
  | _ :: _, [] => false
  | a :: as, b :: bs =>
      if a.toNat < b.toNat then true
      else if b.toNat < a.toNat then false
      else charListLE as bs

/-- Lexicographic string comparison (the behavior of localeCompare on
the ASCII timestamp strings the backup filenames carry). -/
def strLE (a b : String) : Bool :=
  charListLE a.data b.data

/-- The ascending comparison cleanupOldBackups sorts by
(a.timestamp.localeCompare(b.timestamp) on the reconstructed
timestamps). -/
def backupLE (a b : String) : Prop :=
  strLE (restoreTimestamp a) (restoreTimestamp b) = true

instance : DecidableRel backupLE := fun a b =>
  inferInstanceAs (Decidable (strLE (restoreTimestamp a) (restoreTimestamp b) = true))

/-- BackupManager.cleanupOldBackups for one tool: when more than
maxBackups records exist, sort them oldest first and delete every record
before the newest maxBackups. The store lists the sanitized timestamp
fragments of the backup filenames in creation order. -/
def cleanupOldBackups (maxBackups : Nat) (store : List String) : List String :=
  if store.length ≤ maxBackups then store
  else
    let sortedBackups := store.insertionSort backupLE
    let toDelete := sortedBackups.take (store.length - maxBackups)
    store.filter (fun backupId => !(toDelete.contains backupId))

/-- BackupManager.createBackup for an existing live file: copy the
snapshot into the store, then run retention cleanup. -/
def createBackup (maxBackups : Nat) (store : List String) (backupId : String) :
    List String :=
  cleanupOldBackups maxBackups (store ++ [backupId])

/-- A sequence of snapshots of the same target. -/
def snapshotRun (maxBackups : Nat) (backupIds : List String) : List String :=
  backupIds.foldl (createBackup maxBackups) []

/-! ## SyncEngine (src/core/SyncEngine.ts) -/

/-- The converter registration table of the SyncEngine constructor, in
insertion order. ClaudeCodeConverter exists in the repository but is not
registered. -/
def registeredTools : List Tool := [.claude, .cline, .roo, .cursor, .vscode]

/-- Whether converters.get(tool) finds a converter. -/
def registered (tool : Tool) : Bool := registeredTools.contains tool

/-- SyncResult (types.ts). -/
structure SyncResult where
  success : Bool
  tool : Tool
  error : Option String
  addedServers : Option Nat
  modifiedServers : Option Nat
  removedServers : Option Nat
deriving DecidableEq, Repr

/-- SyncOptions (types.ts); force is never read by the engine paths
modelled here. -/
structure SyncOptions where
  tools : Option (List Tool)
  dryRun : Bool
  skipBackup : Bool
deriving Repr

/-- The outcomes of one target's external operations during a run: what
converter.readConfig, converter.writeConfig and
backupManager.createBackup return or throw. -/
structure ToolEnv where
  readConfig : Except String Json
  writeConfig : Json → Except String Unit
  createBackup : Except String Unit

/-- SyncEngine.getEnabledTools: every registered tool not named in
globalSettings.excludeTools. -/
def getEnabledTools (masterConfig : MasterConfig) : List Tool :=
  registeredTools.filter
    (fun tool => !((masterConfig.globalSettings.excludeTools.getD []).contains (toolName tool)))

/-- The failure record syncToolFromMaster returns from its catch block
or for an unregistered tool. -/
def failureResult (tool : Tool) (e : String) : SyncResult :=
  { success := false, tool := tool, error := some e,
    addedServers := none, modifiedServers := none, removedServers := none }

/-- The try block of SyncEngine.syncToolFromMaster: dry runs project and
diff without writing; real runs back up (when enabled and not skipped),
read the live document, project, diff, and write. -/
def syncToolAttempt (env : Tool → ToolEnv) (tool : Tool)
    (masterConfig : MasterConfig) (options : SyncOptions) : Except String Changes :=
  if options.dryRun then do
    let toolConfig := convertFromMasterOf tool masterConfig
    let existingConfig ← (env tool).readConfig
    pure (detectChanges (extractMCPServersOf tool) existingConfig toolConfig)
  else do
    if !options.skipBackup && masterConfig.globalSettings.backupEnabled then
      (env tool).createBackup
    let existingConfig ← (env tool).readConfig
    let newConfig := convertFromMasterOf tool masterConfig
    let changes := detectChanges (extractMCPServersOf tool) existingConfig newConfig
    (env tool).writeConfig newConfig
    pure changes

/-- SyncEngine.syncToolFromMaster: run the try block and catch every
thrown error as that target's failure result. -/
def syncToolFromMaster (env : Tool → ToolEnv) (tool : Tool)
    (masterConfig : MasterConfig) (options : SyncOptions) : SyncResult :=
  if !(registered tool) then
    failureResult tool ("Unknown tool: " ++ toolName tool)
  else
    match syncToolAttempt env tool masterConfig options with
    | .ok changes =>
        { success := true, tool := tool, error := none,
          addedServers := some changes.added.length,
          modifiedServers := some changes.modified.length,
          removedServers := some changes.removed.length }
    | .error e => failureResult tool e

/-- The sequential for-loop over the resolved targets. -/
def syncLoop (env : Tool → ToolEnv) (masterConfig : MasterConfig)
    (options : SyncOptions) : List Tool → List SyncResult
  | [] => []
  | tool :: rest =>
      syncToolFromMaster env tool masterConfig options ::
        syncLoop env masterConfig options rest

/-- SyncEngine.syncFromMaster: load the master record (a load failure
propagates), resolve the target list (options.tools, else the enabled
tools), and process each target in order. -/
def syncFromMaster (env : Tool → ToolEnv)
    (loadConfig : Except String MasterConfig) (options : SyncOptions) :
    Except String (List SyncResult) :=
  match loadConfig with
  | .error e => .error e
  | .ok masterConfig =>
      let tools := match options.tools with
        | some ts => ts
        | none => getEnabledTools masterConfig
      .ok (syncLoop env masterConfig options tools)

/-- What a syncFromTool run leaves behind: the per-target results, the
master store state and the filesystem operations of the master save. -/
structure SyncFromToolOutput where
  results : List SyncResult
  cmState : ConfigManagerState
  masterOps : List FsOp

/-- SyncEngine.syncFromTool: an unknown source throws; otherwise read
the source document, convert it to a fresh master record, save it as the
new master, and fan out to every other registered target (or
options.tools minus the source); a failure before the fan-out is caught
and reported as the single source-tool failure result. -/
def syncFromTool (now : String) (env : Tool → ToolEnv)
    (cm : ConfigManagerState) (sourceTool : Tool) (options : SyncOptions) :
    Except String SyncFromToolOutput :=
  if !(registered sourceTool) then
    .error ("Unknown tool: " ++ toolName sourceTool)
  else
    let attempt : Except String SyncFromToolOutput := do
      let toolConfig ← (env sourceTool).readConfig
      let masterConfig := convertToMasterOf sourceTool now toolConfig
      let saved ← saveConfig now cm masterConfig
      let targetTools :=
        (match options.tools with
          | some ts => ts
          | none => registeredTools).filter (fun tool => tool ≠ sourceTool)
      pure { results := syncLoop env masterConfig options targetTools,
             cmState := saved.1, masterOps := saved.2 }
    match attempt with
    | .ok out => .ok out
    | .error e =>
        .ok { results := [failureResult sourceTool e], cmState := cm, masterOps := [] }

/-! ## Helper lemmas on the JavaScript object model -/

theorem lookup_append_left : ∀ {l1 l2 : List (String × Json)} {k : String} {v : Json},
    l1.lookup k = some v → (l1 ++ l2).lookup k = some v := by
  intro l1 l2 k v h
  induction l1 with
  | nil => exact absurd h (by simp)
  | cons hd tl ih =>
      obtain ⟨k0, v0⟩ := hd
      rw [List.cons_append, List.lookup_cons]
      rw [List.lookup_cons] at h
      cases hb : k == k0 with
      | true =>
          rw [hb] at h
          simp only [hb]
          simpa using h
      | false => simp only [hb]; exact ih (by rw [hb] at h; simpa using h)

theorem lookup_append_right : ∀ {l1 l2 : List (String × Json)} {k : String},
    l1.lookup k = none → (l1 ++ l2).lookup k = l2.lookup k := by
  intro l1 l2 k h
  induction l1 with
  | nil => simp
  | cons hd tl ih =>
      obtain ⟨k0, v0⟩ := hd
      rw [List.lookup_cons] at h
      rw [List.cons_append, List.lookup_cons]
      cases hb : k == k0 with
      | true => rw [hb] at h; simp at h
      | false => rw [hb] at h; simp only [hb]; exact ih (by simpa using h)

theorem lookup_eq_none_of_contains_eq_false :
    ∀ {l : List (String × Json)} {k : String},
      (l.map Prod.fst).contains k = false → l.lookup k = none := by
  intro l k h
  induction l with
  | nil => rfl
  | cons hd tl ih =>
      rw [List.map_cons, List.contains_cons, Bool.or_eq_false_iff] at h
      obtain ⟨k0, v0⟩ := hd
      rw [List.lookup_cons]
      simp only [h.1]
      exact ih h.2

theorem lookup_replace_self :
    ∀ (l : List (String × Json)) (key : String) (v : Json),
      (l.map Prod.fst).contains key = true →
      (l.map (fun kv => if kv.1 = key then (key, v) else kv)).lookup key = some v := by
  intro l key v
  induction l with
  | nil => intro h; simp at h
  | cons hd tl ih =>
      intro hc
      obtain ⟨k0, v0⟩ := hd
      by_cases he : k0 = key
      · subst he
        simp [List.lookup_cons]
      · rw [List.map_cons]
        have : (if (k0, v0).1 = key then (key, v) else (k0, v0)) = (k0, v0) := by
          rw [if_neg he]
        rw [this, List.lookup_cons]
        have hb : (key == k0) = false := beq_eq_false_iff_ne.mpr (fun h => he h.symm)
        simp only [hb]
        apply ih
        rw [List.map_cons, List.contains_cons, Bool.or_eq_true] at hc
        rcases hc with hc | hc
        · exact absurd (beq_iff_eq.mp hc) (fun h => he h.symm)
        · exact hc

theorem lookup_replace_ne :
    ∀ (l : List (String × Json)) (key k : String) (v : Json), k ≠ key →
      (l.map (fun kv => if kv.1 = key then (key, v) else kv)).lookup k = l.lookup k := by
  intro l key k v hne
  induction l with
  | nil => rfl
  | cons hd tl ih =>
      obtain ⟨k0, v0⟩ := hd
      rw [List.map_cons]
      by_cases he : k0 = key
      · subst he
        rw [if_pos rfl, List.lookup_cons, List.lookup_cons]
        have hb : (k == k0) = false := beq_eq_false_iff_ne.mpr hne
        simp only [hb]
        exact ih
      · have : (if (k0, v0).1 = key then (key, v) else (k0, v0)) = (k0, v0) := by
          rw [if_neg he]
        rw [this, List.lookup_cons, List.lookup_cons]
        cases hb : k == k0 with
        | true => rfl
        | false => exact ih

theorem lookup_setKey_self (l : List (String × Json)) (key : String) (v : Json) :
    (setKey l key v).lookup key = some v := by
  unfold setKey
  split
  · next hc => exact lookup_replace_self l key v hc
  · next hc =>
      rw [lookup_append_right
        (lookup_eq_none_of_contains_eq_false (Bool.of_not_eq_true hc))]
      simp [List.lookup_cons]

theorem lookup_setKey_ne (l : List (String × Json)) (key k : String) (v : Json)
    (h : k ≠ key) : (setKey l key v).lookup k = l.lookup k := by
  unfold setKey
  split
  · exact lookup_replace_ne l key k v h
  · cases hl : l.lookup k with
    | some w => exact lookup_append_left hl
    | none =>
        rw [lookup_append_right hl, List.lookup_cons]
        have hb : (k == key) = false := beq_eq_false_iff_ne.mpr h
        simp [hb]

theorem lookup_removeKey_self (l : List (String × Json)) (key : String) :
    (removeKey l key).lookup key = none := by
  induction l with
  | nil => rfl
  | cons hd tl ih =>
      obtain ⟨k0, v0⟩ := hd
      rw [removeKey, List.filter_cons]
      cases hb : key == k0 with
      | true =>
          obtain rfl : key = k0 := beq_iff_eq.mp hb
          rw [if_neg (by simp)]
          exact ih
      | false =>
          have hk : ((k0, v0).1 == key) = false :=
            beq_eq_false_iff_ne.mpr (fun h => (beq_eq_false_iff_ne.mp hb) h.symm)
          rw [if_pos (by simp [hk]), List.lookup_cons]
          simp only [hb]
          exact ih

theorem lookup_removeKey_ne (l : List (String × Json)) (key k : String)
    (h : k ≠ key) : (removeKey l key).lookup k = l.lookup k := by
  induction l with
  | nil => rfl
  | cons hd tl ih =>
      obtain ⟨k0, v0⟩ := hd
      rw [removeKey, List.filter_cons]
      by_cases he : k0 = key
      · subst he
        rw [if_neg (by simp), List.lookup_cons]
        have hb : (k == k0) = false := beq_eq_false_iff_ne.mpr h
        simp only [hb]
        exact ih
      · rw [if_pos (by simp [he]), List.lookup_cons, List.lookup_cons]
        cases hb : k == k0 with
        | true => rfl
        | false => exact ih

theorem lookup_map_value (l : List (String × Json)) (g : Json → Json) (k : String) :
    (l.map (fun kv => (kv.1, g kv.2))).lookup k = (l.lookup k).map g := by
  induction l with
  | nil => rfl
  | cons hd tl ih =>
      obtain ⟨k0, v0⟩ := hd
      rw [List.map_cons, List.lookup_cons, List.lookup_cons]
      cases hb : k == k0 with
      | true => rfl
      | false => exact ih

theorem lookup_mem : ∀ {l : List (String × Json)} {k : String} {v : Json},
    l.lookup k = some v → (k, v) ∈ l := by
  intro l k v h
  induction l with
  | nil => exact absurd h (by simp)
  | cons hd tl ih =>
      obtain ⟨k0, v0⟩ := hd
      rw [List.lookup_cons] at h
      cases hb : k == k0 with
      | true =>
          rw [hb] at h
          obtain rfl : k = k0 := beq_iff_eq.mp hb
          obtain rfl : v0 = v := by simpa using h
          exact List.mem_cons_self _ _
      | false =>
          rw [hb] at h
          exact List.mem_cons_of_mem _ (ih h)

/-! ## Claim C1 -/

/-- C1 (amended): every merge-writing adapter (claude, claude-code,
cursor, vscode) reads the live file first and leaves every top-level key
other than its servers key unchanged, and sets the servers key to the
projected value whenever the projection defines one; but only the VS
Code adapter deletes the servers key when the projected document has no
servers — the claude, claude-code and cursor adapters persist the empty
object under mcpServers instead. -/
theorem claim_C1 (existing : List (String × Json)) (config : Json) (k : String)
    (hk1 : k ≠ "mcpServers") (hk2 : k ≠ "mcp.servers") :
    (objGet (ClaudeDesktopConverter.writeConfigMerge (Except.ok (jObj existing)) config) k
      = objGet (jObj existing) k) ∧
    (objGet (ClaudeCodeConverter.writeConfigMerge (Except.ok (jObj existing)) config) k
      = objGet (jObj existing) k) ∧
    (objGet (CursorConverter.writeConfigMerge (Except.ok (jObj existing)) config) k
      = objGet (jObj existing) k) ∧
    (objGet (VSCodeConverter.writeConfigMerge (Except.ok (jObj existing)) config) k
      = objGet (jObj existing) k) ∧
    (∀ servers, objGet config "mcpServers" = some servers →
      objGet (ClaudeDesktopConverter.writeConfigMerge (Except.ok (jObj existing)) config)
        "mcpServers" = some servers) ∧
    (∀ servers, objGet config "mcpServers" = some servers →
      objGet (ClaudeCodeConverter.writeConfigMerge (Except.ok (jObj existing)) config)
        "mcpServers" = some servers) ∧
    (∀ servers, objGet config "mcpServers" = some servers →
      objGet (CursorConverter.writeConfigMerge (Except.ok (jObj existing)) config)
        "mcpServers" = some servers) ∧
    (∀ servers, objGet config "mcp.servers" = some servers →
        jsTruthy (some servers) = true → 0 < (jsKeys servers).length →
      objGet (VSCodeConverter.writeConfigMerge (Except.ok (jObj existing)) config)
        "mcp.servers" = some servers) ∧
    (∀ m : MasterConfig, enabledNormalizedServers m = [] →
      objGet (VSCodeConverter.writeConfigMerge (Except.ok (jObj existing))
        (VSCodeConverter.convertFromMaster m)) "mcp.servers" = none) ∧
    (∀ m : MasterConfig, enabledNormalizedServers m = [] →
      objGet (ClaudeDesktopConverter.writeConfigMerge (Except.ok (jObj existing))
        (ClaudeDesktopConverter.convertFromMaster m)) "mcpServers" = some (jObj [])) ∧
    (∀ m : MasterConfig, enabledNormalizedServers m = [] →
      objGet (ClaudeCodeConverter.writeConfigMerge (Except.ok (jObj existing))
        (ClaudeCodeConverter.convertFromMaster m)) "mcpServers" = some (jObj [])) ∧
    (∀ m : MasterConfig, enabledNormalizedServers m = [] →
      objGet (CursorConverter.writeConfigMerge (Except.ok (jObj existing))
        (CursorConverter.convertFromMaster m)) "mcpServers" = some (jObj [])) := by
  refine ⟨?_, ?_, ?_, ?_, ?_, ?_, ?_, ?_, ?_, ?_, ?_, ?_⟩
  · unfold ClaudeDesktopConverter.writeConfigMerge
    cases h : objGet config "mcpServers" with
    | some v => simpa using lookup_setKey_ne existing "mcpServers" k v hk1
    | none => simpa using lookup_removeKey_ne existing "mcpServers" k hk1
  · unfold ClaudeCodeConverter.writeConfigMerge
    cases h : objGet config "mcpServers" with
    | some v => simpa using lookup_setKey_ne existing "mcpServers" k v hk1
    | none => simpa using lookup_removeKey_ne existing "mcpServers" k hk1
  · unfold CursorConverter.writeConfigMerge
    cases h : objGet config "mcpServers" with
    | some v => simpa using lookup_setKey_ne existing "mcpServers" k v hk1
    | none => simpa using lookup_removeKey_ne existing "mcpServers" k hk1
  · unfold VSCodeConverter.writeConfigMerge
    dsimp only
    by_cases h : (jsTruthy (objGet config "mcp.servers") &&
        decide ((jsKeys ((objGet config "mcp.servers").getD Json.null)).length > 0)) = true
    · rw [if_pos h]
      simpa using lookup_setKey_ne existing "mcp.servers" k _ hk2
    · rw [if_neg h]
      simpa using lookup_removeKey_ne existing "mcp.servers" k hk2
  · intro servers h
    unfold ClaudeDesktopConverter.writeConfigMerge
    dsimp only
    rw [h]
    simpa using lookup_setKey_self existing "mcpServers" servers
  · intro servers h
    unfold ClaudeCodeConverter.writeConfigMerge
    dsimp only
    rw [h]
    simpa using lookup_setKey_self existing "mcpServers" servers
  · intro servers h
    unfold CursorConverter.writeConfigMerge
    dsimp only
    rw [h]
    simpa using lookup_setKey_self existing "mcpServers" servers
  · intro servers h htruthy hlen
    unfold VSCodeConverter.writeConfigMerge
    dsimp only
    rw [h]
    rw [if_pos (by simp only [htruthy, Option.getD_some, Bool.true_and,
      decide_eq_true_eq, gt_iff_lt]; exact hlen)]
    simpa using lookup_setKey_self existing "mcp.servers" servers
  · intro m hm
    unfold VSCodeConverter.writeConfigMerge VSCodeConverter.convertFromMaster
    dsimp only
    rw [hm]
    rw [if_neg (by decide)]
    simpa using lookup_removeKey_self existing "mcp.servers"
  · intro m hm
    unfold ClaudeDesktopConverter.writeConfigMerge ClaudeDesktopConverter.convertFromMaster
    dsimp only
    rw [hm]
    simpa using lookup_setKey_self existing "mcpServers" (jObj [])
  · intro m hm
    unfold ClaudeCodeConverter.writeConfigMerge ClaudeCodeConverter.convertFromMaster
    dsimp only
    rw [hm]
    simpa using lookup_setKey_self existing "mcpServers" (jObj [])
  · intro m hm
    unfold CursorConverter.writeConfigMerge CursorConverter.convertFromMaster
    dsimp only
    rw [hm]
    simpa using lookup_setKey_self existing "mcpServers" (jObj [])

/-- C1 counterexample: syncing a master with zero servers through the
Claude Desktop adapter onto a live file holding the foreign key theme
preserves the foreign key but leaves the mcpServers key present as an
empty object, not absent as the claim requires of every adapter. -/
theorem claim_C1_counterexample :
    let masterConfig : MasterConfig :=
      { version := "1.0.0", lastUpdated := "2025-01-01T00:00:00.000Z",
        mcpServers := [],
        globalSettings :=
          { backupEnabled := true, syncOnChange := true,
            backupRetentionCount := none, excludeTools := none } }
    let live : Json := jObj
      [("theme", Json.str "dark"),
       ("mcpServers", jObj [("old", jObj [("command", Json.str "node")])])]
    let written := ClaudeDesktopConverter.writeConfigMerge (Except.ok live)
      (ClaudeDesktopConverter.convertFromMaster masterConfig)
    objGet written "theme" = some (Json.str "dark") ∧
    objGet written "mcpServers" = some (jObj []) ∧
    ¬ objGet written "mcpServers" = none := by
  exact ⟨rfl, rfl, fun h => Option.noConfusion h⟩

/-- C1 witness: a foreign theme key survives the Claude Desktop merge
write untouched. -/
theorem claim_C1_witness :
    ("theme" : String) ≠ "mcpServers" ∧ ("theme" : String) ≠ "mcp.servers" ∧
    objGet (ClaudeDesktopConverter.writeConfigMerge
        (Except.ok (jObj [("theme", Json.str "dark")]))
        (jObj [("mcpServers", jObj [])])) "theme"
      = objGet (jObj [("theme", Json.str "dark")]) "theme" := by
  refine ⟨by decide, by decide, ?_⟩
  exact (claim_C1 [("theme", Json.str "dark")] (jObj [("mcpServers", jObj [])])
    "theme" (by decide) (by decide)).1

/-! ## Claim C2 -/

/-- The document key each adapter reads its servers map from. -/
def serversKey : Tool → String
  | .vscode => "mcp.servers"
  | _ => "mcpServers"

theorem map_fst_map_value (l : List (String × Json)) (g : String → Json → Json) :
    (l.map (fun kv => (kv.1, g kv.1 kv.2))).map Prod.fst = l.map Prod.fst := by
  induction l with
  | nil => rfl
  | cons hd tl ih => simp [ih]

/-- C3 (amended): only the VS Code adapter silently excludes entries
failing isValidMCPServerConfig from fromTarget — its imported server
names are exactly the names of the valid entries; every other adapter
(claude, claude-code, cline, roo, cursor) imports every entry of the
servers map, structurally valid or not. All adapters import all valid
entries. -/
theorem claim_C3 (tool : Tool) (now : String) (doc : Json)
    (entries : List (String × Json))
    (h : objGet doc (serversKey tool) = some (jObj entries)) :
    (convertToMasterOf tool now doc).mcpServers.map Prod.fst =
      (if tool = Tool.vscode then
        entries.filter (fun kv => isValidMCPServerConfig kv.2)
       else entries).map Prod.fst := by
  cases tool with
  | vscode =>
      simp only [serversKey] at h
      simp only [convertToMasterOf, VSCodeConverter.convertToMaster, importedMaster, h,
        if_pos rfl]
      rw [if_pos (by simp [jObj, jsTruthy, isJsObjectType])]
      simpa using map_fst_map_value _ (fun _ v => withImportMetadata .vscode (normalizeMCPServerConfig v))
  | claude =>
      simp only [serversKey] at h
      simp only [convertToMasterOf, ClaudeDesktopConverter.convertToMaster, importedMaster, h]
      rw [if_pos (by simp [jObj, jsTruthy]), if_neg (by decide)]
      simpa using map_fst_map_value _ (fun _ v => withImportMetadata .claude (normalizeMCPServerConfig v))
  | claudeCode =>
      simp only [serversKey] at h
      simp only [convertToMasterOf, ClaudeCodeConverter.convertToMaster, importedMaster, h]
      rw [if_pos (by simp [jObj, jsTruthy]), if_neg (by decide)]
      simpa using map_fst_map_value _ (fun _ v => withImportMetadata .claudeCode (normalizeMCPServerConfig v))
  | cline =>
      simp only [serversKey] at h
      simp only [convertToMasterOf, ClineConverter.convertToMaster, importedMaster, h]
      rw [if_pos (by simp [jObj, jsTruthy]), if_neg (by decide)]
      simpa using map_fst_map_value _ (fun _ v => withImportMetadata .cline (normalizeMCPServerConfig v))
  | roo =>
      simp only [serversKey] at h
      simp only [convertToMasterOf, RooCodeConverter.convertToMaster, importedMaster, h]
      rw [if_pos (by simp [jObj, jsTruthy]), if_neg (by decide)]
      simpa using map_fst_map_value _ (fun _ v => withImportMetadata .roo (normalizeMCPServerConfig v))
  | cursor =>
      simp only [serversKey] at h
      simp only [convertToMasterOf, CursorConverter.convertToMaster, importedMaster, h]
      rw [if_pos (by simp [jObj, jsTruthy]), if_neg (by decide)]
      simpa using map_fst_map_value _ (fun _ v => withImportMetadata .cursor (normalizeMCPServerConfig v))

/-- C3 counterexample: the Claude Desktop adapter imports an entry whose
command is empty — an entry isValidMCPServerConfig rejects — instead of
silently excluding it. -/
theorem claim_C3_counterexample :
    let doc := jObj [("mcpServers", jObj
      [("bad", jObj [("command", Json.str "")]),
       ("good", jObj [("command", Json.str "x")])])]
    isValidMCPServerConfig (jObj [("command", Json.str "")]) = false ∧
    (ClaudeDesktopConverter.convertToMaster "T" doc).mcpServers.map Prod.fst =
      ["bad", "good"] ∧
    ¬ (ClaudeDesktopConverter.convertToMaster "T" doc).mcpServers.map Prod.fst =
      ["good"] := by
  refine ⟨by rfl, by rfl, by decide⟩

/-- C3 witness: the VS Code adapter keeps the valid entry and drops the
invalid one. -/
theorem claim_C3_witness :
    objGet (jObj [("mcp.servers", jObj
        [("bad", jObj [("command", Json.str "")]),
         ("good", jObj [("command", Json.str "x")])])]) (serversKey Tool.vscode) =
      some (jObj [("bad", jObj [("command", Json.str "")]),
                  ("good", jObj [("command", Json.str "x")])]) ∧
    (convertToMasterOf Tool.vscode "T" (jObj [("mcp.servers", jObj
        [("bad", jObj [("command", Json.str "")]),
         ("good", jObj [("command", Json.str "x")])])])).mcpServers.map Prod.fst =
      (if Tool.vscode = Tool.vscode then
        ([("bad", jObj [("command", Json.str "")]),
          ("good", jObj [("command", Json.str "x")])]).filter
            (fun kv => isValidMCPServerConfig kv.2)
       else [("bad", jObj [("command", Json.str "")]),
             ("good", jObj [("command", Json.str "x")])]).map Prod.fst :=
  ⟨by rfl,
   claim_C3 Tool.vscode "T" _ _ (by rfl)⟩

/-! ## Claim C4 -/

theorem mem_dedupKeysAux (l : List String) : ∀ (seen : List String) (k : String),
    k ∈ dedupKeysAux seen l ↔ k ∈ l ∧ ¬ k ∈ seen := by
  induction l with
  | nil => intro seen k; simp [dedupKeysAux]
  | cons hd tl ih =>
      intro seen k
      simp only [dedupKeysAux]
      by_cases hc : seen.contains hd = true
      · rw [if_pos hc, ih]
        have hmem : hd ∈ seen := by simpa using hc
        constructor
        · rintro ⟨h1, h2⟩
          exact ⟨List.mem_cons_of_mem _ h1, h2⟩
        · rintro ⟨h1, h2⟩
          rcases List.mem_cons.mp h1 with rfl | h1
          · exact absurd hmem h2
          · exact ⟨h1, h2⟩
      · rw [if_neg hc]
        have hmem : ¬ hd ∈ seen := by simpa using hc
        simp only [List.mem_cons, ih]
        constructor
        · rintro (rfl | ⟨h1, h2⟩)
          · exact ⟨Or.inl rfl, hmem⟩
          · refine ⟨Or.inr h1, fun hk => h2 (Or.inr hk)⟩
        · rintro ⟨rfl | h1, h2⟩
          · exact Or.inl rfl
          · by_cases he : k = hd
            · exact Or.inl he
            · exact Or.inr ⟨h1, by simp [List.mem_cons, he, h2]⟩

theorem mem_dedupKeys (l : List String) (k : String) :
    k ∈ dedupKeys l ↔ k ∈ l := by
  rw [dedupKeys, mem_dedupKeysAux]
  simp

theorem mem_map_fst_of_lookup {l : List (String × Json)} {k : String} {v : Json}
    (h : l.lookup k = some v) : k ∈ l.map Prod.fst :=
  List.mem_map.mpr ⟨(k, v), lookup_mem h, rfl⟩

/-- C4 (amended): detectChanges classifies an entry present in both
documents as modified exactly when the JSON.stringify serializations of
the two raw extracted entries differ; that serialization preserves key
insertion order, so detectChanges is sensitive to args ordering and
equally sensitive to key order within env and to field order within a
ServerEntry — the comparison is not a canonical stable-key-order one. -/
theorem claim_C4 (tool : Tool) (oldConfig newConfig : Json) (k : String)
    (vo vn : Json)
    (ho : (jsEntries (extractMCPServersOf tool oldConfig)).lookup k = some vo)
    (hn : (jsEntries (extractMCPServersOf tool newConfig)).lookup k = some vn) :
    k ∈ (detectChanges (extractMCPServersOf tool) oldConfig newConfig).modified ↔
      serialize vo ≠ serialize vn := by
  unfold detectChanges
  simp only [List.mem_filter, jsKeys, mem_dedupKeys, ho, hn, Option.getD_some]
  constructor
  · rintro ⟨⟨-, -⟩, hne⟩
    exact bne_iff_ne.mp hne
  · intro hne
    refine ⟨⟨mem_map_fst_of_lookup ho, ?_⟩, bne_iff_ne.mpr hne⟩
    simpa [mem_dedupKeys] using mem_map_fst_of_lookup hn

/-- C4 counterexample: two documents whose single entry differs only in
the key order of env (equal as a key-to-value mapping, a permutation of
the same fields) are classified as modified, refuting insensitivity to
key order within env. -/
theorem claim_C4_counterexample :
    let envO : List (String × Json) := [("A", Json.str "1"), ("B", Json.str "2")]
    let envN : List (String × Json) := [("B", Json.str "2"), ("A", Json.str "1")]
    let oldDoc := jObj [("mcpServers", jObj
      [("a", jObj [("command", Json.str "c"), ("env", jObj envO)])])]
    let newDoc := jObj [("mcpServers", jObj
      [("a", jObj [("command", Json.str "c"), ("env", jObj envN)])])]
    envO.Perm envN ∧
    envO.lookup "A" = envN.lookup "A" ∧
    envO.lookup "B" = envN.lookup "B" ∧
    (detectChanges ClaudeDesktopConverter.extractMCPServers oldDoc newDoc).modified
      = ["a"] ∧
    ¬ (detectChanges ClaudeDesktopConverter.extractMCPServers oldDoc newDoc).modified
      = [] := by
  exact ⟨List.Perm.swap _ _ _, rfl, rfl, by rfl, by decide⟩

/-- C4 witness: reordering args registers as a modification. -/
theorem claim_C4_witness :
    (jsEntries (extractMCPServersOf Tool.claude (jObj [("mcpServers", jObj
        [("a", jObj [("command", Json.str "c"),
                     ("args", jArr [Json.str "x", Json.str "y"])])])]))).lookup "a" =
      some (jObj [("command", Json.str "c"),
                  ("args", jArr [Json.str "x", Json.str "y"])]) ∧
    ("a" ∈ (detectChanges (extractMCPServersOf Tool.claude)
        (jObj [("mcpServers", jObj
          [("a", jObj [("command", Json.str "c"),
                       ("args", jArr [Json.str "x", Json.str "y"])])])])
        (jObj [("mcpServers", jObj
          [("a", jObj [("command", Json.str "c"),
                       ("args", jArr [Json.str "y", Json.str "x"])])])])).modified ↔
      serialize (jObj [("command", Json.str "c"),
                       ("args", jArr [Json.str "x", Json.str "y"])]) ≠
        serialize (jObj [("command", Json.str "c"),
                         ("args", jArr [Json.str "y", Json.str "x"])])) :=
  ⟨by rfl, claim_C4 Tool.claude _ _ "a" _ _ (by rfl) (by rfl)⟩

/-! ## Claim C5 -/

/-- C5 (amended): validation never requires url — the master schema and
the converter-level structural check both accept a server entry whose
transport is sse or http and which has no url key at all; url is
optional regardless of transport. -/
theorem claim_C5 (cmd t : String) (hcmd : 1 ≤ cmd.length)
    (ht : t = "sse" ∨ t = "http") :
    (zodParseMCPServerConfig
        (jObj [("command", Json.str cmd), ("transport", Json.str t)])).isSome = true ∧
    isValidMCPServerConfig
        (jObj [("command", Json.str cmd), ("transport", Json.str t)]) = true ∧
    objGet (jObj [("command", Json.str cmd), ("transport", Json.str t)]) "url" = none := by
  have hne : cmd ≠ "" := by
    intro h
    rw [h] at hcmd
    simp at hcmd
  rcases ht with rfl | rfl <;>
    refine ⟨?_, ?_, by rfl⟩ <;>
    simp [zodParseMCPServerConfig, zodOptionalField, zodEnum, isValidMCPServerConfig,
      isJsObjectType, jObj, JsonFields.ofList, JsonFields.toList, objGet,
      List.lookup_cons, hcmd, hne]

/-- C5 counterexample: a concrete entry with transport sse and no url is
accepted by the schema and the structural check — validation does not
reject it. -/
theorem claim_C5_counterexample :
    objGet (jObj [("command", Json.str "srv"), ("transport", Json.str "sse")]) "url"
      = none ∧
    (zodParseMCPServerConfig
        (jObj [("command", Json.str "srv"), ("transport", Json.str "sse")])).isSome
      = true ∧
    ¬ (zodParseMCPServerConfig
        (jObj [("command", Json.str "srv"), ("transport", Json.str "sse")]))
      = none ∧
    isValidMCPServerConfig
        (jObj [("command", Json.str "srv"), ("transport", Json.str "sse")]) = true := by
  exact ⟨rfl, rfl, by decide, rfl⟩

/-- C5 witness: the amended statement at a concrete http entry. -/
theorem claim_C5_witness :
    1 ≤ ("node" : String).length ∧
    ((zodParseMCPServerConfig
        (jObj [("command", Json.str "node"), ("transport", Json.str "http")])).isSome = true ∧
     isValidMCPServerConfig
        (jObj [("command", Json.str "node"), ("transport", Json.str "http")]) = true ∧
     objGet (jObj [("command", Json.str "node"), ("transport", Json.str "http")]) "url"
      = none) :=
  ⟨by decide, claim_C5 "node" "http" (by decide) (Or.inr rfl)⟩

/-! ## Claim C6 -/

/-- The snapshot relation of successively created backups: earlier
reconstructed timestamps compare at or below later ones and ids are
distinct. -/
def backupOrdered (a b : String) : Prop :=
  backupLE a b ∧ a ≠ b

instance : DecidableRel backupOrdered := fun a b =>
  inferInstanceAs (Decidable (backupLE a b ∧ a ≠ b))

theorem filter_not_mem_take (L : List String) : ∀ (k : Nat), L.Nodup →
    L.filter (fun backupId => !((L.take k).contains backupId)) = L.drop k := by
  induction L with
  | nil => intro k _; simp
  | cons a tl ih =>
      intro k hnd
      cases k with
      | zero => simp
      | succ k =>
          rw [List.drop_succ_cons, List.filter_cons]
          rw [if_neg (by simp [List.take_succ_cons])]
          have hcongr :
              tl.filter (fun backupId => !(((a :: tl).take (k + 1)).contains backupId)) =
              tl.filter (fun backupId => !((tl.take k).contains backupId)) := by
            apply List.filter_congr
            intro x hx
            have hxa : x ≠ a := fun he => (List.nodup_cons.mp hnd).1 (he ▸ hx)
            simp [List.take_succ_cons, List.contains_cons, hxa]
          rw [hcongr]
          exact ih k (List.nodup_cons.mp hnd).2

theorem cleanupOldBackups_sorted (maxBackups : Nat) (L : List String)
    (hs : L.Pairwise backupOrdered) :
    cleanupOldBackups maxBackups L = L.drop (L.length - maxBackups) := by
  unfold cleanupOldBackups
  by_cases hlen : L.length ≤ maxBackups
  · rw [if_pos hlen, Nat.sub_eq_zero_of_le hlen, List.drop_zero]
  · rw [if_neg hlen]
    have hsort : List.Sorted backupLE L := hs.imp (fun h => h.1)
    have hnd : L.Nodup := hs.imp (fun h => h.2)
    rw [hsort.insertionSort_eq]
    exact filter_not_mem_take L (L.length - maxBackups) hnd

theorem snapshotRun_sorted (maxBackups : Nat) (backupIds : List String)
    (hs : backupIds.Pairwise backupOrdered) :
    snapshotRun maxBackups backupIds =
      backupIds.drop (backupIds.length - maxBackups) := by
  induction backupIds using List.reverseRecOn with
  | nil => simp [snapshotRun]
  | append_singleton ids x ih =>
      have hparts := List.pairwise_append.mp hs
      have hids : ids.Pairwise backupOrdered := hparts.1
      have hx : ∀ a ∈ ids, backupOrdered a x := fun a ha =>
        hparts.2.2 a ha x (by simp)
      have hstep : snapshotRun maxBackups (ids ++ [x]) =
          createBackup maxBackups (snapshotRun maxBackups ids) x := by
        simp [snapshotRun, List.foldl_append]
      rw [hstep, ih hids]
      unfold createBackup
      have hSsub : (ids.drop (ids.length - maxBackups)).Sublist ids := List.drop_sublist _ _
      have hSsorted :
          ((ids.drop (ids.length - maxBackups)) ++ [x]).Pairwise backupOrdered := by
        rw [List.pairwise_append]
        exact ⟨List.Pairwise.sublist hSsub hids, List.pairwise_singleton _ _,
          fun a ha b hb => by
            rw [List.mem_singleton.mp hb]
            exact hx a (hSsub.mem ha)⟩
      rw [cleanupOldBackups_sorted maxBackups _ hSsorted]
      by_cases hcase : ids.length ≤ maxBackups
      · rw [Nat.sub_eq_zero_of_le hcase, List.drop_zero]
      · have hgt : maxBackups < ids.length := Nat.lt_of_not_le hcase
        have hSN : (ids.drop (ids.length - maxBackups)).length = maxBackups := by
          rw [List.length_drop]
          omega
        have hL1 : ((ids.drop (ids.length - maxBackups)) ++ [x]).length - maxBackups = 1 := by
          simp only [List.length_append, List.length_singleton, hSN]
          omega
        have hR : (ids ++ [x]).length - maxBackups = (ids.length - maxBackups) + 1 := by
          simp only [List.length_append, List.length_singleton]
          omega
        rw [hL1, hR]
        by_cases hN0 : maxBackups = 0
        · subst hN0
          rw [List.eq_nil_of_length_eq_zero hSN]
          have hall : ids.length - 0 + 1 = (ids ++ [x]).length := by simp
          rw [hall, List.drop_length]
          rfl
        · rw [List.drop_append_of_le_length (by omega : 1 ≤ (ids.drop (ids.length - maxBackups)).length),
            List.drop_append_of_le_length (by omega : ids.length - maxBackups + 1 ≤ ids.length)]
          rw [List.drop_drop]

/-- C6 (amended): after N+k snapshots of the same target, where N is the
BackupManager retention count, exactly N snapshots remain and they are
the N most recent; but the retention count pruning uses is the
constructor parameter maxBackups (default 10), as the CLI always
constructs the BackupManager with the default — it never comes from
globalSettings.backupRetentionCount, which no code reads. -/
theorem claim_C6 (maxBackups k : Nat) (backupIds : List String)
    (hlen : backupIds.length = maxBackups + k)
    (hs : backupIds.Pairwise backupOrdered) :
    snapshotRun maxBackups backupIds = backupIds.drop k ∧
    (snapshotRun maxBackups backupIds).length = maxBackups := by
  have h := snapshotRun_sorted maxBackups backupIds hs
  have hk : backupIds.length - maxBackups = k := by omega
  constructor
  · rw [h, hk]
  · rw [h, List.length_drop]
    omega

/-- C6 counterexample: with globalSettings.backupRetentionCount set to 2
and the CLI-constructed BackupManager (maxBackups defaulted to 10),
three successive snapshots all survive pruning — not the two the claim
derives from global settings. -/
theorem claim_C6_counterexample :
    let settings : GlobalSettings :=
      { backupEnabled := true, syncOnChange := true,
        backupRetentionCount := some 2, excludeTools := none }
    settings.backupRetentionCount = some 2 ∧
    cliBackupManagerMaxBackups = 10 ∧
    snapshotRun cliBackupManagerMaxBackups
        ["2025-01-01T00-00-01-000Z", "2025-01-01T00-00-02-000Z",
         "2025-01-01T00-00-03-000Z"] =
      ["2025-01-01T00-00-01-000Z", "2025-01-01T00-00-02-000Z",
       "2025-01-01T00-00-03-000Z"] ∧
    ¬ (snapshotRun cliBackupManagerMaxBackups
        ["2025-01-01T00-00-01-000Z", "2025-01-01T00-00-02-000Z",
         "2025-01-01T00-00-03-000Z"]).length = 2 := by
  exact ⟨rfl, rfl, by rfl, by decide⟩

/-- C6 witness: three snapshots under retention count two keep exactly
the two most recent. -/
theorem claim_C6_witness :
    (["2025-01-01T00-00-01-000Z", "2025-01-01T00-00-02-000Z",
      "2025-01-01T00-00-03-000Z"] : List String).length = 2 + 1 ∧
    List.Pairwise backupOrdered
      ["2025-01-01T00-00-01-000Z", "2025-01-01T00-00-02-000Z",
       "2025-01-01T00-00-03-000Z"] ∧
    (snapshotRun 2 ["2025-01-01T00-00-01-000Z", "2025-01-01T00-00-02-000Z",
        "2025-01-01T00-00-03-000Z"] =
      (["2025-01-01T00-00-01-000Z", "2025-01-01T00-00-02-000Z",
        "2025-01-01T00-00-03-000Z"] : List String).drop 1 ∧
     (snapshotRun 2 ["2025-01-01T00-00-01-000Z", "2025-01-01T00-00-02-000Z",
        "2025-01-01T00-00-03-000Z"]).length = 2) :=
  ⟨by decide, by decide,
   claim_C6 2 1 ["2025-01-01T00-00-01-000Z", "2025-01-01T00-00-02-000Z",
     "2025-01-01T00-00-03-000Z"] (by decide) (by decide)⟩

/-! ## Claim C9 -/

theorem syncLoop_eq_map (env : Tool → ToolEnv) (masterConfig : MasterConfig)
    (options : SyncOptions) (tools : List Tool) :
    syncLoop env masterConfig options tools =
      tools.map (fun tool => syncToolFromMaster env tool masterConfig options) := by
  induction tools with
  | nil => rfl
  | cons hd tl ih => simp [syncLoop, ih]

/-- C9 (confirmed): when the master record loads, syncFromMaster returns
the ordered list of per-target outcomes — one syncToolFromMaster result
per resolved target, in resolution order, never aborting; each outcome
carries its own tool, an unsuccessful outcome always carries an error
message, and a target whose read throws (here with backups skipped and
no dry run) yields exactly the caught per-target failure record while
the run continues. -/
theorem claim_C9 (env : Tool → ToolEnv) (masterConfig : MasterConfig)
    (options : SyncOptions) :
    syncFromMaster env (Except.ok masterConfig) options =
      Except.ok
        ((match options.tools with
          | some ts => ts
          | none => getEnabledTools masterConfig).map
          (fun tool => syncToolFromMaster env tool masterConfig options)) ∧
    (∀ tool : Tool, (syncToolFromMaster env tool masterConfig options).tool = tool) ∧
    (∀ tool : Tool, (syncToolFromMaster env tool masterConfig options).success = false →
      (syncToolFromMaster env tool masterConfig options).error.isSome = true) ∧
    (∀ (tool : Tool) (e : String), registered tool = true → options.dryRun = false →
      options.skipBackup = true → (env tool).readConfig = Except.error e →
      syncToolFromMaster env tool masterConfig options = failureResult tool e) := by
  refine ⟨?_, ?_, ?_, ?_⟩
  · unfold syncFromMaster
    dsimp only
    rw [syncLoop_eq_map]
  · intro tool
    unfold syncToolFromMaster
    split
    · rfl
    · cases syncToolAttempt env tool masterConfig options <;> rfl
  · intro tool
    unfold syncToolFromMaster
    split
    · intro _
      rfl
    · cases syncToolAttempt env tool masterConfig options
      · intro _
        rfl
      · intro h
        simp at h
  · intro tool e hreg hdry hskip hread
    unfold syncToolFromMaster
    rw [if_neg (by simp [hreg])]
    have hatt : syncToolAttempt env tool masterConfig options = Except.error e := by
      unfold syncToolAttempt
      rw [if_neg (by simp [hdry])]
      simp only [hskip, hread, Bool.not_true, Bool.false_and, if_neg (by simp : ¬ (false = true))]
      rfl
    rw [hatt]

/-- A per-tool environment whose reads throw. -/
def envReadFails : Tool → ToolEnv := fun _ =>
  { readConfig := Except.error "EACCES: permission denied"
    writeConfig := fun _ => Except.ok ()
    createBackup := Except.ok () }

/-- The options of a plain non-dry sync with backups skipped. -/
def skipBackupOptions : SyncOptions :=
  { tools := none, dryRun := false, skipBackup := true }

/-- C9 witness: with a read that throws for every target, the claude
outcome is the caught per-target failure record. -/
theorem claim_C9_witness :
    registered Tool.claude = true ∧
    skipBackupOptions.dryRun = false ∧
    skipBackupOptions.skipBackup = true ∧
    (envReadFails Tool.claude).readConfig =
      Except.error "EACCES: permission denied" ∧
    syncToolFromMaster envReadFails Tool.claude (importedMaster "T" [])
        skipBackupOptions =
      failureResult Tool.claude "EACCES: permission denied" :=
  ⟨rfl, rfl, rfl, rfl,
   (claim_C9 envReadFails (importedMaster "T" []) skipBackupOptions).2.2.2
     Tool.claude "EACCES: permission denied" rfl rfl rfl rfl⟩

/-! ## Claim C10 -/

theorem zodParseMasterConfig_masterToJson {m v : MasterConfig}
    (h : zodParseMasterConfig (masterToJson m) = some v) :
    v.version = m.version ∧
    zodParseGlobalSettings (globalSettingsToJson m.globalSettings) =
      some v.globalSettings := by
  unfold zodParseMasterConfig masterToJson jObj at h
  simp only [JsonFields.toList_ofList_fields, List.lookup, String.reduceBEq,
    beq_self_eq_true] at h
  cases hm : List.mapM
      (fun kv => Option.map (fun w => (kv.1, w)) (zodParseMCPServerConfig kv.2))
      m.mcpServers with
  | none =>
      rw [hm] at h
      simp at h
  | some servers =>
      rw [hm] at h
      cases hg : zodParseGlobalSettings (globalSettingsToJson m.globalSettings) with
      | none =>
          rw [hg] at h
          simp at h
      | some g =>
          rw [hg] at h
          simp only [Option.bind_eq_bind, Option.some_bind, Option.some.injEq] at h
          obtain rfl := h.symm
          refine ⟨rfl, ?_⟩
          simpa using hg

/-- C10 (confirmed): whenever syncFromTool reads its source document and
the converted record passes validation, the persisted master record —
written to the master path and cached — has version 1.0.0 and the
constant globalSettings (backupEnabled and syncOnChange true, no
backupRetentionCount, no excludeTools), independent of every previously
configured value; the fan-out then covers every other target. -/
theorem claim_C10 (now : String) (env : Tool → ToolEnv)
    (cm : ConfigManagerState) (sourceTool : Tool) (options : SyncOptions)
    (doc : Json) (validated : MasterConfig)
    (hreg : registered sourceTool = true)
    (hread : (env sourceTool).readConfig = Except.ok doc)
    (hdoc : doc ≠ Json.null)
    (hparse : zodParseMasterConfig
      (masterToJson (convertToMasterOf sourceTool now doc)) = some validated) :
    (convertToMasterOf sourceTool now doc).version = "1.0.0" ∧
    (convertToMasterOf sourceTool now doc).globalSettings =
      { backupEnabled := true, syncOnChange := true,
        backupRetentionCount := none, excludeTools := none } ∧
    { validated with lastUpdated := now }.version = "1.0.0" ∧
    { validated with lastUpdated := now }.globalSettings =
      { backupEnabled := true, syncOnChange := true,
        backupRetentionCount := none, excludeTools := none } ∧
    syncFromTool now env cm sourceTool options =
      Except.ok
        { results := syncLoop env (convertToMasterOf sourceTool now doc) options
            ((match options.tools with
              | some ts => ts
              | none => registeredTools).filter (fun tool => tool ≠ sourceTool)),
          cmState := { cm with config := some { validated with lastUpdated := now } },
          masterOps := writeJsonOps cm.configPath
            (masterToJson { validated with lastUpdated := now }) } := by
  have hver : (convertToMasterOf sourceTool now doc).version = "1.0.0" := by
    cases sourceTool <;> rfl
  have hgs : (convertToMasterOf sourceTool now doc).globalSettings =
      { backupEnabled := true, syncOnChange := true,
        backupRetentionCount := none, excludeTools := none } := by
    cases sourceTool <;> rfl
  have hev := zodParseMasterConfig_masterToJson hparse
  have hvver : validated.version = "1.0.0" := by rw [hev.1, hver]
  have hvgs : validated.globalSettings =
      { backupEnabled := true, syncOnChange := true,
        backupRetentionCount := none, excludeTools := none } := by
    have h2 := hev.2
    rw [hgs] at h2
    exact (Option.some.inj h2).symm
  have hsave : saveConfig now cm (convertToMasterOf sourceTool now doc) =
      Except.ok ({ cm with config := some { validated with lastUpdated := now } },
        writeJsonOps cm.configPath (masterToJson { validated with lastUpdated := now })) := by
    unfold saveConfig
    rw [hparse]
  refine ⟨hver, hgs, hvver, hvgs, ?_⟩
  unfold syncFromTool
  rw [if_neg (by simp [hreg])]
  rw [hread]
  dsimp only [Bind.bind, Except.bind]
  rw [hsave]
  rfl

/-- A per-tool environment that reads an empty live document. -/
def envReadsEmptyDoc : Tool → ToolEnv := fun _ =>
  { readConfig := Except.ok (jObj [])
    writeConfig := fun _ => Except.ok ()
    createBackup := Except.ok () }

/-- The options of a plain sync call with no flags set. -/
def plainOptions : SyncOptions :=
  { tools := none, dryRun := false, skipBackup := false }

/-- C10 witness: syncing from the claude tool with an empty source
document persists the constant fresh master record. -/
theorem claim_C10_witness :
    registered Tool.claude = true ∧
    (envReadsEmptyDoc Tool.claude).readConfig = Except.ok (jObj []) ∧
    jObj [] ≠ Json.null ∧
    zodParseMasterConfig
      (masterToJson (convertToMasterOf Tool.claude "T" (jObj []))) =
      some (importedMaster "T" []) ∧
    ((convertToMasterOf Tool.claude "T" (jObj [])).version = "1.0.0" ∧
     (convertToMasterOf Tool.claude "T" (jObj [])).globalSettings =
       { backupEnabled := true, syncOnChange := true,
         backupRetentionCount := none, excludeTools := none } ∧
     { importedMaster "T" [] with lastUpdated := "T" }.version = "1.0.0" ∧
     { importedMaster "T" [] with lastUpdated := "T" }.globalSettings =
       { backupEnabled := true, syncOnChange := true,
         backupRetentionCount := none, excludeTools := none } ∧
     syncFromTool "T" envReadsEmptyDoc { configPath := "/m.json", config := none }
        Tool.claude plainOptions =
       Except.ok
         { results := syncLoop envReadsEmptyDoc
             (convertToMasterOf Tool.claude "T" (jObj [])) plainOptions
             ((match plainOptions.tools with
               | some ts => ts
               | none => registeredTools).filter (fun tool => tool ≠ Tool.claude))
           cmState := { configPath := "/m.json"
                        config := some { importedMaster "T" [] with lastUpdated := "T" } }
           masterOps := writeJsonOps "/m.json"
             (masterToJson { importedMaster "T" [] with lastUpdated := "T" }) }) :=
  ⟨rfl, rfl, by decide, rfl,
   claim_C10 "T" envReadsEmptyDoc { configPath := "/m.json", config := none }
     Tool.claude plainOptions (jObj []) (importedMaster "T" [])
     rfl rfl (by decide) rfl⟩


/-! ## Claim C7 -/

/-- The fields the round-trip claim compares (metadata excluded). -/
def roundTripFields : List String := ["command", "args", "env", "transport", "url"]

theorem lookup_keepDefined_ne (v : Json) (key f : String) (h : f ≠ key) :
    (keepDefined v key).lookup f = none := by
  unfold keepDefined
  cases objGet v key with
  | none => rfl
  | some w =>
      rw [List.lookup_cons]
      have hb : (f == key) = false := beq_eq_false_iff_ne.mpr h
      simp [hb]

theorem lookup_keepTruthy_ne (v : Json) (key f : String) (h : f ≠ key) :
    (keepTruthy v key).lookup f = none := by
  unfold keepTruthy
  cases objGet v key with
  | none => rfl
  | some w =>
      dsimp only
      by_cases ht : jsTruthy (some w) = true
      · rw [if_pos ht, List.lookup_cons]
        have hb : (f == key) = false := beq_eq_false_iff_ne.mpr h
        simp [hb]
      · rw [if_neg ht]
        rfl

theorem lookup_keepDefined_self_append (v : Json) (key : String)
    (l2 : List (String × Json)) (hrest : l2.lookup key = none) :
    ((keepDefined v key) ++ l2).lookup key = objGet v key := by
  unfold keepDefined
  cases objGet v key with
  | none => simpa using hrest
  | some w =>
      rw [List.singleton_append, List.lookup_cons]
      simp

theorem lookup_keepTruthy_self_append (v : Json) (key : String)
    (l2 : List (String × Json)) (hrest : l2.lookup key = none) :
    ((keepTruthy v key) ++ l2).lookup key =
      if jsTruthy (objGet v key) then objGet v key else none := by
  unfold keepTruthy
  cases objGet v key with
  | none => simpa [jsTruthy] using hrest
  | some w =>
      dsimp only
      by_cases ht : jsTruthy (some w) = true
      · rw [if_pos ht, if_pos ht, List.singleton_append, List.lookup_cons]
        simp
      · rw [if_neg ht, if_neg ht]
        simpa using hrest

theorem lookup_keepTruthy_self (v : Json) (key : String) :
    (keepTruthy v key).lookup key =
      if jsTruthy (objGet v key) then objGet v key else none := by
  unfold keepTruthy
  cases objGet v key with
  | none => simp [jsTruthy]
  | some w =>
      dsimp only
      by_cases ht : jsTruthy (some w) = true
      · rw [if_pos ht, if_pos ht, List.lookup_cons]
        simp
      · rw [if_neg ht, if_neg ht]
        rfl

theorem objGet_normalize_command (v : Json) :
    objGet (normalizeMCPServerConfig v) "command" = objGet v "command" := by
  unfold normalizeMCPServerConfig
  rw [objGet_jObj]
  simp only [List.append_assoc]
  apply lookup_keepDefined_self_append
  rw [lookup_append_right (lookup_keepTruthy_ne v "args" "command" (by decide)),
      lookup_append_right (lookup_keepTruthy_ne v "env" "command" (by decide)),
      lookup_append_right (lookup_keepDefined_ne v "disabled" "command" (by decide)),
      lookup_append_right (lookup_keepTruthy_ne v "alwaysAllow" "command" (by decide)),
      lookup_append_right (lookup_keepTruthy_ne v "autoApprove" "command" (by decide)),
      lookup_append_right (lookup_keepTruthy_ne v "transport" "command" (by decide)),
      lookup_append_right (lookup_keepTruthy_ne v "type" "command" (by decide))]
  exact lookup_keepTruthy_ne v "url" "command" (by decide)

theorem objGet_normalize_args (v : Json) :
    objGet (normalizeMCPServerConfig v) "args" =
      if jsTruthy (objGet v "args") then objGet v "args" else none := by
  unfold normalizeMCPServerConfig
  rw [objGet_jObj]
  simp only [List.append_assoc]
  rw [lookup_append_right (lookup_keepDefined_ne v "command" "args" (by decide))]
  apply lookup_keepTruthy_self_append
  rw [lookup_append_right (lookup_keepTruthy_ne v "env" "args" (by decide)),
      lookup_append_right (lookup_keepDefined_ne v "disabled" "args" (by decide)),
      lookup_append_right (lookup_keepTruthy_ne v "alwaysAllow" "args" (by decide)),
      lookup_append_right (lookup_keepTruthy_ne v "autoApprove" "args" (by decide)),
      lookup_append_right (lookup_keepTruthy_ne v "transport" "args" (by decide)),
      lookup_append_right (lookup_keepTruthy_ne v "type" "args" (by decide))]
  exact lookup_keepTruthy_ne v "url" "args" (by decide)

theorem objGet_normalize_env (v : Json) :
    objGet (normalizeMCPServerConfig v) "env" =
      if jsTruthy (objGet v "env") then objGet v "env" else none := by
  unfold normalizeMCPServerConfig
  rw [objGet_jObj]
  simp only [List.append_assoc]
  rw [lookup_append_right (lookup_keepDefined_ne v "command" "env" (by decide)),
      lookup_append_right (lookup_keepTruthy_ne v "args" "env" (by decide))]
  apply lookup_keepTruthy_self_append
  rw [lookup_append_right (lookup_keepDefined_ne v "disabled" "env" (by decide)),
      lookup_append_right (lookup_keepTruthy_ne v "alwaysAllow" "env" (by decide)),
      lookup_append_right (lookup_keepTruthy_ne v "autoApprove" "env" (by decide)),
      lookup_append_right (lookup_keepTruthy_ne v "transport" "env" (by decide)),
      lookup_append_right (lookup_keepTruthy_ne v "type" "env" (by decide))]
  exact lookup_keepTruthy_ne v "url" "env" (by decide)

theorem objGet_normalize_disabled (v : Json) :
    objGet (normalizeMCPServerConfig v) "disabled" = objGet v "disabled" := by
  unfold normalizeMCPServerConfig
  rw [objGet_jObj]
  simp only [List.append_assoc]
  rw [lookup_append_right (lookup_keepDefined_ne v "command" "disabled" (by decide)),
      lookup_append_right (lookup_keepTruthy_ne v "args" "disabled" (by decide)),
      lookup_append_right (lookup_keepTruthy_ne v "env" "disabled" (by decide))]
  apply lookup_keepDefined_self_append
  rw [lookup_append_right (lookup_keepTruthy_ne v "alwaysAllow" "disabled" (by decide)),
      lookup_append_right (lookup_keepTruthy_ne v "autoApprove" "disabled" (by decide)),
      lookup_append_right (lookup_keepTruthy_ne v "transport" "disabled" (by decide)),
      lookup_append_right (lookup_keepTruthy_ne v "type" "disabled" (by decide))]
  exact lookup_keepTruthy_ne v "url" "disabled" (by decide)

theorem objGet_normalize_alwaysAllow (v : Json) :
    objGet (normalizeMCPServerConfig v) "alwaysAllow" =
      if jsTruthy (objGet v "alwaysAllow") then objGet v "alwaysAllow" else none := by
  unfold normalizeMCPServerConfig
  rw [objGet_jObj]
  simp only [List.append_assoc]
  rw [lookup_append_right (lookup_keepDefined_ne v "command" "alwaysAllow" (by decide)),
      lookup_append_right (lookup_keepTruthy_ne v "args" "alwaysAllow" (by decide)),
      lookup_append_right (lookup_keepTruthy_ne v "env" "alwaysAllow" (by decide)),
      lookup_append_right (lookup_keepDefined_ne v "disabled" "alwaysAllow" (by decide))]
  apply lookup_keepTruthy_self_append
  rw [lookup_append_right (lookup_keepTruthy_ne v "autoApprove" "alwaysAllow" (by decide)),
      lookup_append_right (lookup_keepTruthy_ne v "transport" "alwaysAllow" (by decide)),
      lookup_append_right (lookup_keepTruthy_ne v "type" "alwaysAllow" (by decide))]
  exact lookup_keepTruthy_ne v "url" "alwaysAllow" (by decide)

theorem objGet_normalize_autoApprove (v : Json) :
    objGet (normalizeMCPServerConfig v) "autoApprove" =
      if jsTruthy (objGet v "autoApprove") then objGet v "autoApprove" else none := by
  unfold normalizeMCPServerConfig
  rw [objGet_jObj]
  simp only [List.append_assoc]
  rw [lookup_append_right (lookup_keepDefined_ne v "command" "autoApprove" (by decide)),
      lookup_append_right (lookup_keepTruthy_ne v "args" "autoApprove" (by decide)),
      lookup_append_right (lookup_keepTruthy_ne v "env" "autoApprove" (by decide)),
      lookup_append_right (lookup_keepDefined_ne v "disabled" "autoApprove" (by decide)),
      lookup_append_right (lookup_keepTruthy_ne v "alwaysAllow" "autoApprove" (by decide))]
  apply lookup_keepTruthy_self_append
  rw [lookup_append_right (lookup_keepTruthy_ne v "transport" "autoApprove" (by decide)),
      lookup_append_right (lookup_keepTruthy_ne v "type" "autoApprove" (by decide))]
  exact lookup_keepTruthy_ne v "url" "autoApprove" (by decide)

theorem objGet_normalize_transport (v : Json) :
    objGet (normalizeMCPServerConfig v) "transport" =
      if jsTruthy (objGet v "transport") then objGet v "transport" else none := by
  unfold normalizeMCPServerConfig
  rw [objGet_jObj]
  simp only [List.append_assoc]
  rw [lookup_append_right (lookup_keepDefined_ne v "command" "transport" (by decide)),
      lookup_append_right (lookup_keepTruthy_ne v "args" "transport" (by decide)),
      lookup_append_right (lookup_keepTruthy_ne v "env" "transport" (by decide)),
      lookup_append_right (lookup_keepDefined_ne v "disabled" "transport" (by decide)),
      lookup_append_right (lookup_keepTruthy_ne v "alwaysAllow" "transport" (by decide)),
      lookup_append_right (lookup_keepTruthy_ne v "autoApprove" "transport" (by decide))]
  apply lookup_keepTruthy_self_append
  rw [lookup_append_right (lookup_keepTruthy_ne v "type" "transport" (by decide))]
  exact lookup_keepTruthy_ne v "url" "transport" (by decide)

theorem objGet_normalize_type (v : Json) :
    objGet (normalizeMCPServerConfig v) "type" =
      if jsTruthy (objGet v "type") then objGet v "type" else none := by
  unfold normalizeMCPServerConfig
  rw [objGet_jObj]
  simp only [List.append_assoc]
  rw [lookup_append_right (lookup_keepDefined_ne v "command" "type" (by decide)),
      lookup_append_right (lookup_keepTruthy_ne v "args" "type" (by decide)),
      lookup_append_right (lookup_keepTruthy_ne v "env" "type" (by decide)),
      lookup_append_right (lookup_keepDefined_ne v "disabled" "type" (by decide)),
      lookup_append_right (lookup_keepTruthy_ne v "alwaysAllow" "type" (by decide)),
      lookup_append_right (lookup_keepTruthy_ne v "autoApprove" "type" (by decide)),
      lookup_append_right (lookup_keepTruthy_ne v "transport" "type" (by decide))]
  apply lookup_keepTruthy_self_append
  exact lookup_keepTruthy_ne v "url" "type" (by decide)

theorem objGet_normalize_url (v : Json) :
    objGet (normalizeMCPServerConfig v) "url" =
      if jsTruthy (objGet v "url") then objGet v "url" else none := by
  unfold normalizeMCPServerConfig
  rw [objGet_jObj]
  simp only [List.append_assoc]
  rw [lookup_append_right (lookup_keepDefined_ne v "command" "url" (by decide)),
      lookup_append_right (lookup_keepTruthy_ne v "args" "url" (by decide)),
      lookup_append_right (lookup_keepTruthy_ne v "env" "url" (by decide)),
      lookup_append_right (lookup_keepDefined_ne v "disabled" "url" (by decide)),
      lookup_append_right (lookup_keepTruthy_ne v "alwaysAllow" "url" (by decide)),
      lookup_append_right (lookup_keepTruthy_ne v "autoApprove" "url" (by decide)),
      lookup_append_right (lookup_keepTruthy_ne v "transport" "url" (by decide)),
      lookup_append_right (lookup_keepTruthy_ne v "type" "url" (by decide))]
  exact lookup_keepTruthy_self v "url"

theorem optionBindInv {α β : Type} {x : Option α} {f : α → Option β} {b : β}
    (h : (x >>= f) = some b) : ∃ a, x = some a ∧ f a = some b := by
  cases x with
  | none => exact Option.noConfusion h
  | some a => exact ⟨a, rfl, h⟩

theorem zodString_inv {w w2 : Json} (h : zodString w = some w2) :
    ∃ u, w = Json.str u := by
  cases w with
  | str u => exact ⟨u, rfl⟩
  | null => exact Option.noConfusion h
  | bool b => exact Option.noConfusion h
  | num n => exact Option.noConfusion h
  | arr xs => exact Option.noConfusion h
  | obj kvs => exact Option.noConfusion h

theorem zodStringArray_inv {w w2 : Json} (h : zodStringArray w = some w2) :
    ∃ xs, w = Json.arr xs := by
  cases w with
  | arr xs => exact ⟨xs, rfl⟩
  | null => exact Option.noConfusion h
  | bool b => exact Option.noConfusion h
  | num n => exact Option.noConfusion h
  | str s =>
      exact Option.noConfusion h
  | obj kvs => exact Option.noConfusion h

theorem zodStringRecord_inv {w w2 : Json} (h : zodStringRecord w = some w2) :
    ∃ kvs, w = Json.obj kvs := by
  cases w with
  | obj kvs => exact ⟨kvs, rfl⟩
  | null => exact Option.noConfusion h
  | bool b => exact Option.noConfusion h
  | num n => exact Option.noConfusion h
  | str s => exact Option.noConfusion h
  | arr xs => exact Option.noConfusion h

theorem zodBoolean_inv {w w2 : Json} (h : zodBoolean w = some w2) :
    ∃ b, w = Json.bool b := by
  cases w with
  | bool b => exact ⟨b, rfl⟩
  | null => exact Option.noConfusion h
  | num n => exact Option.noConfusion h
  | str s => exact Option.noConfusion h
  | arr xs => exact Option.noConfusion h
  | obj kvs => exact Option.noConfusion h

theorem mem_of_contains {l : List String} {a : String} (h : l.contains a = true) :
    a ∈ l := by
  induction l with
  | nil => exact absurd h (by simp)
  | cons hd tl ih =>
      by_cases he : a = hd
      · exact he ▸ List.mem_cons_self _ _
      · have hb : (a == hd) = false := beq_eq_false_iff_ne.mpr he
        rw [List.contains_cons, hb] at h
        exact List.mem_cons_of_mem _ (ih (by simpa using h))

theorem zodEnum_inv {opts : List String} {w w2 : Json}
    (h : zodEnum opts w = some w2) : ∃ t, w = Json.str t ∧ t ∈ opts := by
  cases w with
  | str t =>
      by_cases hc : opts.contains t = true
      · exact ⟨t, rfl, mem_of_contains hc⟩
      · have hif : (if opts.contains t then some (Json.str t) else none) = some w2 := h
        rw [if_neg hc] at hif
        exact Option.noConfusion hif
  | null => exact Option.noConfusion h
  | bool b => exact Option.noConfusion h
  | num n => exact Option.noConfusion h
  | arr xs => exact Option.noConfusion h
  | obj kvs => exact Option.noConfusion h

theorem zodOptionalField_inv {fields : List (String × Json)} {key : String}
    {check : Json → Option Json} {l : List (String × Json)}
    (h : zodOptionalField fields key check = some l) :
    fields.lookup key = none ∨
      ∃ w w2, fields.lookup key = some w ∧ check w = some w2 := by
  unfold zodOptionalField at h
  split at h
  next heq => exact Or.inl heq
  next v heq =>
      split at h
      next v2 heq2 => exact Or.inr ⟨v, v2, heq, heq2⟩
      next heq2 => exact Option.noConfusion h

/-- Shape extraction from a Zod-valid server entry: the entry is an
object whose command is a non-empty string and whose optional fields,
when present, have the schema's shapes (transport a member of the
transport enum). -/
theorem zodServer_shape {v : Json} (h : (zodParseMCPServerConfig v).isSome = true) :
    (∃ s, objGet v "command" = some (Json.str s) ∧ s ≠ "") ∧
    (objGet v "args" = none ∨ ∃ xs, objGet v "args" = some (Json.arr xs)) ∧
    (objGet v "env" = none ∨ ∃ kvs, objGet v "env" = some (Json.obj kvs)) ∧
    (objGet v "disabled" = none ∨ ∃ b, objGet v "disabled" = some (Json.bool b)) ∧
    (objGet v "alwaysAllow" = none ∨ ∃ xs, objGet v "alwaysAllow" = some (Json.arr xs)) ∧
    (objGet v "autoApprove" = none ∨ ∃ xs, objGet v "autoApprove" = some (Json.arr xs)) ∧
    (objGet v "transport" = none ∨ ∃ t, objGet v "transport" = some (Json.str t) ∧
      (t = "stdio" ∨ t = "sse" ∨ t = "http")) ∧
    (objGet v "url" = none ∨ ∃ u, objGet v "url" = some (Json.str u)) := by
  cases v with
  | null => simp [zodParseMCPServerConfig] at h
  | bool b => simp [zodParseMCPServerConfig] at h
  | num n => simp [zodParseMCPServerConfig] at h
  | str s => simp [zodParseMCPServerConfig] at h
  | arr xs => simp [zodParseMCPServerConfig] at h
  | obj kvs =>
      obtain ⟨out, hout⟩ := Option.isSome_iff_exists.mp h
      simp only [zodParseMCPServerConfig] at hout
      obtain ⟨s, hl, hlen, hout⟩ :
          ∃ s, kvs.toList.lookup "command" = some (Json.str s) ∧ s.length ≥ 1 ∧
            (do
              let fargs ← zodOptionalField kvs.toList "args" zodStringArray
              let fenv ← zodOptionalField kvs.toList "env" zodStringRecord
              let fdis ← zodOptionalField kvs.toList "disabled" zodBoolean
              let faa ← zodOptionalField kvs.toList "alwaysAllow" zodStringArray
              let fap ← zodOptionalField kvs.toList "autoApprove" zodStringArray
              let ftr ← zodOptionalField kvs.toList "transport" (zodEnum ["stdio", "sse", "http"])
              let fty ← zodOptionalField kvs.toList "type" (zodEnum ["sse", "http", "stdio"])
              let furl ← zodOptionalField kvs.toList "url" zodString
              let fmeta ← zodOptionalField kvs.toList "metadata" zodMetadata
              some (jObj ([("command", Json.str s)] ++ fargs ++ fenv ++ fdis ++ faa ++
                fap ++ ftr ++ fty ++ furl ++ fmeta))) = some out := by
        split at hout
        next s2 heq =>
            by_cases hlen : s2.length ≥ 1
            · rw [if_pos hlen] at hout
              exact ⟨s2, heq, hlen, hout⟩
            · rw [if_neg hlen] at hout
              exact Option.noConfusion hout
        next x hne => exact Option.noConfusion hout
      obtain ⟨fargs, hargs, hout⟩ := optionBindInv hout
      obtain ⟨fenv, henv, hout⟩ := optionBindInv hout
      obtain ⟨fdis, hdis, hout⟩ := optionBindInv hout
      obtain ⟨faa, haa, hout⟩ := optionBindInv hout
      obtain ⟨fap, hap, hout⟩ := optionBindInv hout
      obtain ⟨ftr, htr, hout⟩ := optionBindInv hout
      obtain ⟨fty, hty, hout⟩ := optionBindInv hout
      obtain ⟨furl, hurl, hout⟩ := optionBindInv hout
      refine ⟨?_, ?_, ?_, ?_, ?_, ?_, ?_, ?_⟩
      · refine ⟨s, hl, fun he => ?_⟩
        rw [he] at hlen
        exact absurd hlen (by decide)
      · rcases zodOptionalField_inv hargs with hn | ⟨w, w2, hw, hc⟩
        · exact Or.inl hn
        · obtain ⟨xs, rfl⟩ := zodStringArray_inv hc
          exact Or.inr ⟨xs, hw⟩
      · rcases zodOptionalField_inv henv with hn | ⟨w, w2, hw, hc⟩
        · exact Or.inl hn
        · obtain ⟨okvs, rfl⟩ := zodStringRecord_inv hc
          exact Or.inr ⟨okvs, hw⟩
      · rcases zodOptionalField_inv hdis with hn | ⟨w, w2, hw, hc⟩
        · exact Or.inl hn
        · obtain ⟨b, rfl⟩ := zodBoolean_inv hc
          exact Or.inr ⟨b, hw⟩
      · rcases zodOptionalField_inv haa with hn | ⟨w, w2, hw, hc⟩
        · exact Or.inl hn
        · obtain ⟨xs, rfl⟩ := zodStringArray_inv hc
          exact Or.inr ⟨xs, hw⟩
      · rcases zodOptionalField_inv hap with hn | ⟨w, w2, hw, hc⟩
        · exact Or.inl hn
        · obtain ⟨xs, rfl⟩ := zodStringArray_inv hc
          exact Or.inr ⟨xs, hw⟩
      · rcases zodOptionalField_inv htr with hn | ⟨w, w2, hw, hc⟩
        · exact Or.inl hn
        · obtain ⟨t, rfl, hmem⟩ := zodEnum_inv hc
          refine Or.inr ⟨t, hw, ?_⟩
          simpa using hmem
      · rcases zodOptionalField_inv hurl with hn | ⟨w, w2, hw, hc⟩
        · exact Or.inl hn
        · obtain ⟨u, rfl⟩ := zodString_inv hc
          exact Or.inr ⟨u, hw⟩

/-- A server entry of the schema's shapes normalizes to an entry that
passes isValidMCPServerConfig (so the VS Code import filter keeps it). -/
theorem isValid_normalize {v : Json}
    (hcmd : ∃ s, objGet v "command" = some (Json.str s) ∧ s ≠ "")
    (hargs : objGet v "args" = none ∨ ∃ xs, objGet v "args" = some (Json.arr xs))
    (henv : objGet v "env" = none ∨ ∃ kvs, objGet v "env" = some (Json.obj kvs))
    (hdis : objGet v "disabled" = none ∨ ∃ b, objGet v "disabled" = some (Json.bool b))
    (haa : objGet v "alwaysAllow" = none ∨ ∃ xs, objGet v "alwaysAllow" = some (Json.arr xs))
    (hap : objGet v "autoApprove" = none ∨ ∃ xs, objGet v "autoApprove" = some (Json.arr xs))
    (htr : objGet v "transport" = none ∨ ∃ t, objGet v "transport" = some (Json.str t) ∧
      (t = "stdio" ∨ t = "sse" ∨ t = "http")) :
    isValidMCPServerConfig (normalizeMCPServerConfig v) = true := by
  obtain ⟨s, hs, hsne⟩ := hcmd
  unfold isValidMCPServerConfig
  rw [objGet_normalize_command, objGet_normalize_args, objGet_normalize_env,
      objGet_normalize_disabled, objGet_normalize_alwaysAllow, objGet_normalize_autoApprove,
      objGet_normalize_transport, hs]
  simp only [Bool.and_eq_true]
  refine ⟨⟨⟨⟨⟨⟨⟨?_, ?_⟩, ?_⟩, ?_⟩, ?_⟩, ?_⟩, ?_⟩, ?_⟩
  · rfl
  · exact bne_iff_ne.mpr hsne
  · rcases hargs with h | ⟨xs, h⟩ <;> rw [h] <;> simp [jsTruthy]
  · rcases henv with h | ⟨kvs, h⟩ <;> rw [h] <;> simp [jsTruthy, isJsObjectType]
  · rcases hdis with h | ⟨b, h⟩ <;> rw [h] <;> rfl
  · rcases haa with h | ⟨xs, h⟩ <;> rw [h] <;> simp [jsTruthy]
  · rcases hap with h | ⟨xs, h⟩ <;> rw [h] <;> simp [jsTruthy]
  · rcases htr with h | ⟨t, h, hm⟩
    · rw [h]; simp [jsTruthy]
    · rw [h]; rcases hm with rfl | rfl | rfl <;> decide

/-- On entries whose optional compared fields are truthy when present
(schema shapes with a non-empty url when present),
normalizeMCPServerConfig preserves every compared field. -/
theorem objGet_normalize_eq {v : Json}
    (hargs : objGet v "args" = none ∨ ∃ xs, objGet v "args" = some (Json.arr xs))
    (henv : objGet v "env" = none ∨ ∃ kvs, objGet v "env" = some (Json.obj kvs))
    (htr : objGet v "transport" = none ∨ ∃ t, objGet v "transport" = some (Json.str t) ∧
      t ≠ "")
    (hurl : objGet v "url" = none ∨ ∃ u, objGet v "url" = some (Json.str u) ∧ u ≠ "") :
    ∀ f ∈ roundTripFields, objGet (normalizeMCPServerConfig v) f = objGet v f := by
  intro f hf
  have hf5 : f = "command" ∨ f = "args" ∨ f = "env" ∨ f = "transport" ∨ f = "url" := by
    simpa [roundTripFields] using hf
  rcases hf5 with rfl | rfl | rfl | rfl | rfl
  · exact objGet_normalize_command v
  · rw [objGet_normalize_args]
    rcases hargs with h | ⟨xs, h⟩ <;> rw [h] <;> simp [jsTruthy]
  · rw [objGet_normalize_env]
    rcases henv with h | ⟨kvs, h⟩ <;> rw [h] <;> simp [jsTruthy]
  · rw [objGet_normalize_transport]
    rcases htr with h | ⟨t, h, htne⟩
    · rw [h]; simp [jsTruthy]
    · rw [h]; simp [jsTruthy, htne]
  · rw [objGet_normalize_url]
    rcases hurl with h | ⟨u, h, hune⟩
    · rw [h]; simp [jsTruthy]
    · rw [h]; simp [jsTruthy, hune]

/-- Stamping the import metadata changes no other field of a normalized
entry. -/
theorem objGet_withImportMetadata_normalize (tool : Tool) (w : Json) (f : String)
    (h : f ≠ "metadata") :
    objGet (withImportMetadata tool (normalizeMCPServerConfig w)) f =
      objGet (normalizeMCPServerConfig w) f := by
  unfold withImportMetadata normalizeMCPServerConfig
  rw [jsEntries_jObj, objGet_jObj, objGet_jObj]
  exact lookup_setKey_ne _ _ _ _ h

/-- The per-entry round trip: metadata stamped onto the twice-normalized
entry agrees with the original Zod-valid entry (with no empty url) on
every compared field. -/
theorem objGet_roundtrip_entry (tool : Tool) {v : Json}
    (hzod : (zodParseMCPServerConfig v).isSome = true)
    (hurlne : objGet v "url" ≠ some (Json.str "")) :
    ∀ f ∈ roundTripFields,
      objGet (withImportMetadata tool
        (normalizeMCPServerConfig (normalizeMCPServerConfig v))) f = objGet v f := by
  obtain ⟨hcmd, hargs, henv, hdis, haa, hap, htr, hurl⟩ := zodServer_shape hzod
  have hurl2 : objGet v "url" = none ∨
      ∃ u, objGet v "url" = some (Json.str u) ∧ u ≠ "" := by
    rcases hurl with h | ⟨u, h⟩
    · exact Or.inl h
    · refine Or.inr ⟨u, h, ?_⟩
      rintro rfl
      exact hurlne h
  have htr2 : objGet v "transport" = none ∨
      ∃ t, objGet v "transport" = some (Json.str t) ∧ t ≠ "" := by
    rcases htr with h | ⟨t, h, hm⟩
    · exact Or.inl h
    · refine Or.inr ⟨t, h, ?_⟩
      rcases hm with rfl | rfl | rfl <;> decide
  have h1 : ∀ f ∈ roundTripFields, objGet (normalizeMCPServerConfig v) f = objGet v f :=
    objGet_normalize_eq hargs henv htr2 hurl2
  have h2 : ∀ f ∈ roundTripFields,
      objGet (normalizeMCPServerConfig (normalizeMCPServerConfig v)) f =
        objGet (normalizeMCPServerConfig v) f := by
    apply objGet_normalize_eq
    · rw [h1 "args" (by simp [roundTripFields])]; exact hargs
    · rw [h1 "env" (by simp [roundTripFields])]; exact henv
    · rw [h1 "transport" (by simp [roundTripFields])]; exact htr2
    · rw [h1 "url" (by simp [roundTripFields])]; exact hurl2
  intro f hf
  have hfm : f ≠ "metadata" := by
    rcases (by simpa [roundTripFields] using hf :
      f = "command" ∨ f = "args" ∨ f = "env" ∨ f = "transport" ∨ f = "url") with
      rfl | rfl | rfl | rfl | rfl <;> decide
  rw [objGet_withImportMetadata_normalize tool _ f hfm, h2 f hf, h1 f hf]

/-- With no truthy-disabled entries and all normalized entries valid, the
round trip through any adapter maps each master entry to the metadata-
stamped double normalization of its value, in order. -/
theorem roundtrip_servers (tool : Tool) (now : String) (m : MasterConfig)
    (hdis : ∀ kv ∈ m.mcpServers, jsTruthy (objGet kv.2 "disabled") = false)
    (hvalid : ∀ kv ∈ m.mcpServers,
      isValidMCPServerConfig (normalizeMCPServerConfig kv.2) = true) :
    (convertToMasterOf tool now (convertFromMasterOf tool m)).mcpServers =
      m.mcpServers.map (fun kv => (kv.1, withImportMetadata tool
        (normalizeMCPServerConfig (normalizeMCPServerConfig kv.2)))) := by
  have hens : enabledNormalizedServers m =
      m.mcpServers.map (fun kv => (kv.1, normalizeMCPServerConfig kv.2)) := by
    unfold enabledNormalizedServers
    rw [List.filter_eq_self.mpr (fun kv hkv => by simp [hdis kv hkv])]
  cases tool with
  | claude =>
      have h : objGet (convertFromMasterOf Tool.claude m) "mcpServers" =
          some (jObj (enabledNormalizedServers m)) := by
        simp [convertFromMasterOf, ClaudeDesktopConverter.convertFromMaster]
      simp only [convertToMasterOf, ClaudeDesktopConverter.convertToMaster,
        importedMaster, h]
      rw [if_pos (by simp [jObj, jsTruthy])]
      simp only [Option.getD_some, jsEntries_jObj]
      rw [hens, List.map_map]
      rfl
  | claudeCode =>
      have h : objGet (convertFromMasterOf Tool.claudeCode m) "mcpServers" =
          some (jObj (enabledNormalizedServers m)) := by
        simp [convertFromMasterOf, ClaudeCodeConverter.convertFromMaster]
      simp only [convertToMasterOf, ClaudeCodeConverter.convertToMaster,
        importedMaster, h]
      rw [if_pos (by simp [jObj, jsTruthy])]
      simp only [Option.getD_some, jsEntries_jObj]
      rw [hens, List.map_map]
      rfl
  | cline =>
      have h : objGet (convertFromMasterOf Tool.cline m) "mcpServers" =
          some (jObj (enabledNormalizedServers m)) := by
        simp [convertFromMasterOf, ClineConverter.convertFromMaster]
      simp only [convertToMasterOf, ClineConverter.convertToMaster,
        importedMaster, h]
      rw [if_pos (by simp [jObj, jsTruthy])]
      simp only [Option.getD_some, jsEntries_jObj]
      rw [hens, List.map_map]
      rfl
  | roo =>
      have h : objGet (convertFromMasterOf Tool.roo m) "mcpServers" =
          some (jObj (enabledNormalizedServers m)) := by
        simp [convertFromMasterOf, RooCodeConverter.convertFromMaster]
      simp only [convertToMasterOf, RooCodeConverter.convertToMaster,
        importedMaster, h]
      rw [if_pos (by simp [jObj, jsTruthy])]
      simp only [Option.getD_some, jsEntries_jObj]
      rw [hens, List.map_map]
      rfl
  | cursor =>
      have h : objGet (convertFromMasterOf Tool.cursor m) "mcpServers" =
          some (jObj (enabledNormalizedServers m)) := by
        simp [convertFromMasterOf, CursorConverter.convertFromMaster]
      simp only [convertToMasterOf, CursorConverter.convertToMaster,
        importedMaster, h]
      rw [if_pos (by simp [jObj, jsTruthy])]
      simp only [Option.getD_some, jsEntries_jObj]
      rw [hens, List.map_map]
      rfl
  | vscode =>
      cases hm : m.mcpServers with
      | nil =>
          have hens0 : enabledNormalizedServers m = [] := by
            rw [hens, hm]
            rfl
          simp only [convertFromMasterOf, VSCodeConverter.convertFromMaster, hens0]
          rw [if_neg (by decide)]
          simp only [convertToMasterOf, List.map_nil]
          rfl
      | cons hd tl =>
          have hlen : (enabledNormalizedServers m).length > 0 := by
            rw [hens, hm]
            simp
          simp only [convertFromMasterOf, VSCodeConverter.convertFromMaster]
          rw [if_pos hlen]
          have h : objGet (jObj [("mcp.servers", jObj (enabledNormalizedServers m))])
              "mcp.servers" = some (jObj (enabledNormalizedServers m)) := by
            simp
          simp only [convertToMasterOf, VSCodeConverter.convertToMaster,
            importedMaster, h]
          rw [if_pos (by simp [jObj, jsTruthy, isJsObjectType])]
          simp only [Option.getD_some, jsEntries_jObj]
          have hval2 : ∀ kv ∈ enabledNormalizedServers m,
              isValidMCPServerConfig kv.2 = true := by
            intro kv hkv
            rw [hens] at hkv
            obtain ⟨kv0, hkv0, rfl⟩ := List.mem_map.mp hkv
            exact hvalid kv0 hkv0
          rw [List.filter_eq_self.mpr hval2, hens, List.map_map, ← hm]
          rfl

/-- C7 (amended): for every adapter, a master whose server entries are
Zod-schema-valid, none truthy-disabled, and none carrying a present but
empty url, round-trips through toTarget then fromTarget to exactly the
same server names in order, and each surviving entry agrees with the
original on command, args, env, transport and url (metadata excluded);
without the url restriction the claim fails, since normalization drops a
present empty-string url. -/
theorem claim_C7 (tool : Tool) (now : String) (m : MasterConfig)
    (hzod : ∀ kv ∈ m.mcpServers, (zodParseMCPServerConfig kv.2).isSome = true)
    (hdis : ∀ kv ∈ m.mcpServers, jsTruthy (objGet kv.2 "disabled") = false)
    (hurl : ∀ kv ∈ m.mcpServers, objGet kv.2 "url" ≠ some (Json.str "")) :
    (convertToMasterOf tool now (convertFromMasterOf tool m)).mcpServers.map Prod.fst =
      m.mcpServers.map Prod.fst ∧
    ∀ k v, m.mcpServers.lookup k = some v →
      ∃ w, (convertToMasterOf tool now (convertFromMasterOf tool m)).mcpServers.lookup k =
          some w ∧
        ∀ f ∈ roundTripFields, objGet w f = objGet v f := by
  have hvalid : ∀ kv ∈ m.mcpServers,
      isValidMCPServerConfig (normalizeMCPServerConfig kv.2) = true := by
    intro kv hkv
    obtain ⟨hcmd, hargs, henv, hdisS, haa, hap, htr, hurlS⟩ := zodServer_shape (hzod kv hkv)
    exact isValid_normalize hcmd hargs henv hdisS haa hap htr
  have hrt := roundtrip_servers tool now m hdis hvalid
  constructor
  · rw [hrt]
    exact map_fst_map_value m.mcpServers
      (fun _ v => withImportMetadata tool
        (normalizeMCPServerConfig (normalizeMCPServerConfig v)))
  · intro k v hkv
    refine ⟨withImportMetadata tool
      (normalizeMCPServerConfig (normalizeMCPServerConfig v)), ?_, ?_⟩
    · rw [hrt, lookup_map_value m.mcpServers
        (fun v => withImportMetadata tool
          (normalizeMCPServerConfig (normalizeMCPServerConfig v))) k, hkv]
      rfl
    · have hmem := lookup_mem hkv
      exact objGet_roundtrip_entry tool (hzod (k, v) hmem) (hurl (k, v) hmem)

/-- C7 counterexample: a schema-valid master entry with a present but
empty url (not disabled, no metadata) keeps its server name through the
Claude Desktop round trip, but normalization drops the falsy url, so the
reproduced entry disagrees with the original on url. -/
theorem claim_C7_counterexample :
    let entry := jObj [("command", Json.str "c"), ("url", Json.str "")]
    let m : MasterConfig :=
      { version := "1.0.0"
        lastUpdated := "T"
        mcpServers := [("s", entry)]
        globalSettings :=
          { backupEnabled := true
            syncOnChange := true
            backupRetentionCount := none
            excludeTools := none } }
    (zodParseMCPServerConfig entry).isSome = true ∧
    jsTruthy (objGet entry "disabled") = false ∧
    objGet entry "metadata" = none ∧
    (ClaudeDesktopConverter.convertToMaster "T"
        (ClaudeDesktopConverter.convertFromMaster m)).mcpServers.map Prod.fst = ["s"] ∧
    ¬ objGet (((ClaudeDesktopConverter.convertToMaster "T"
          (ClaudeDesktopConverter.convertFromMaster m)).mcpServers.lookup "s").getD
        Json.null) "url" = objGet entry "url" := by
  refine ⟨by decide, rfl, rfl, by decide, by decide⟩

/-- A concrete master for the C7 witness: two enabled schema-valid
entries, one carrying args, env, transport and a non-empty url. -/
def roundTripWitnessMaster : MasterConfig :=
  { version := "1.0.0"
    lastUpdated := "2024-01-01T00:00:00.000Z"
    mcpServers :=
      [("alpha", jObj [("command", Json.str "node"),
                       ("args", jArr [Json.str "server.js"]),
                       ("env", jObj [("KEY", Json.str "v")]),
                       ("transport", Json.str "sse"),
                       ("url", Json.str "https://example.com")]),
       ("beta", jObj [("command", Json.str "python")])]
    globalSettings :=
      { backupEnabled := true
        syncOnChange := true
        backupRetentionCount := none
        excludeTools := none } }

/-- C7 witness: the hypotheses hold for the concrete master and the
Claude Desktop round trip reproduces its names and compared fields. -/
theorem claim_C7_witness :
    (∀ kv ∈ roundTripWitnessMaster.mcpServers,
      (zodParseMCPServerConfig kv.2).isSome = true) ∧
    (∀ kv ∈ roundTripWitnessMaster.mcpServers,
      jsTruthy (objGet kv.2 "disabled") = false) ∧
    (∀ kv ∈ roundTripWitnessMaster.mcpServers,
      objGet kv.2 "url" ≠ some (Json.str "")) ∧
    ((convertToMasterOf Tool.claude "T"
        (convertFromMasterOf Tool.claude roundTripWitnessMaster)).mcpServers.map Prod.fst =
      roundTripWitnessMaster.mcpServers.map Prod.fst ∧
    ∀ k v, roundTripWitnessMaster.mcpServers.lookup k = some v →
      ∃ w, (convertToMasterOf Tool.claude "T"
          (convertFromMasterOf Tool.claude roundTripWitnessMaster)).mcpServers.lookup k =
          some w ∧
        ∀ f ∈ roundTripFields, objGet w f = objGet v f) :=
  ⟨by decide, by decide, by decide,
   claim_C7 Tool.claude "T" roundTripWitnessMaster (by decide) (by decide) (by decide)⟩

/-! ## Claim C8 -/

/-- C8 (amended): for every adapter and every document, the servers of
fromTarget(document) are exactly the entries of extractServers(document)
in order, each passed through normalizeMCPServerConfig and stamped with
the import metadata — so the two projections agree on the server names,
but on entry fields only up to normalization, not identically: raw
extracted entries keep unknown and falsy fields that fromTarget drops. -/
theorem claim_C8 (tool : Tool) (now : String) (doc : Json) :
    (convertToMasterOf tool now doc).mcpServers =
      (jsEntries (extractMCPServersOf tool doc)).map
        (fun kv => (kv.1, withImportMetadata tool (normalizeMCPServerConfig kv.2))) ∧
    (convertToMasterOf tool now doc).mcpServers.map Prod.fst =
      (jsEntries (extractMCPServersOf tool doc)).map Prod.fst := by
  have hb : (convertToMasterOf tool now doc).mcpServers =
      (jsEntries (extractMCPServersOf tool doc)).map
        (fun kv => (kv.1, withImportMetadata tool (normalizeMCPServerConfig kv.2))) := by
    cases tool with
    | claude =>
        simp only [convertToMasterOf, extractMCPServersOf,
          ClaudeDesktopConverter.convertToMaster, ClaudeDesktopConverter.extractMCPServers,
          importedMaster]
        by_cases h : jsTruthy (objGet doc "mcpServers") = true
        · rw [if_pos h, if_pos h]
        · rw [if_neg h, if_neg h]
          simp
    | claudeCode =>
        simp only [convertToMasterOf, extractMCPServersOf,
          ClaudeCodeConverter.convertToMaster, ClaudeCodeConverter.extractMCPServers,
          importedMaster]
        by_cases h : jsTruthy (objGet doc "mcpServers") = true
        · rw [if_pos h, if_pos h]
        · rw [if_neg h, if_neg h]
          simp
    | cline =>
        simp only [convertToMasterOf, extractMCPServersOf,
          ClineConverter.convertToMaster, ClineConverter.extractMCPServers,
          importedMaster]
        by_cases h : jsTruthy (objGet doc "mcpServers") = true
        · rw [if_pos h, if_pos h]
        · rw [if_neg h, if_neg h]
          simp
    | roo =>
        simp only [convertToMasterOf, extractMCPServersOf,
          RooCodeConverter.convertToMaster, RooCodeConverter.extractMCPServers,
          importedMaster]
        by_cases h : jsTruthy (objGet doc "mcpServers") = true
        · rw [if_pos h, if_pos h]
        · rw [if_neg h, if_neg h]
          simp
    | cursor =>
        simp only [convertToMasterOf, extractMCPServersOf,
          CursorConverter.convertToMaster, CursorConverter.extractMCPServers,
          importedMaster]
        by_cases h : jsTruthy (objGet doc "mcpServers") = true
        · rw [if_pos h, if_pos h]
        · rw [if_neg h, if_neg h]
          simp
    | vscode =>
        simp only [convertToMasterOf, extractMCPServersOf,
          VSCodeConverter.convertToMaster, VSCodeConverter.extractMCPServers,
          importedMaster]
        by_cases h : (jsTruthy (objGet doc "mcp.servers") &&
            isJsObjectType ((objGet doc "mcp.servers").getD Json.null)) = true
        · rw [if_pos h, if_pos h]
          simp
        · rw [if_neg h, if_neg h]
          simp
  exact ⟨hb, by
    rw [hb]
    exact map_fst_map_value _
      (fun _ v => withImportMetadata tool (normalizeMCPServerConfig v))⟩

/-- C8 counterexample: the Claude Desktop adapter extracts the raw entry,
keeping a field the schema does not know, while fromTarget normalizes it
away — so the two projections agree on the name but not on every field
of the entry, even after removing the synthesized metadata. -/
theorem claim_C8_counterexample :
    let doc := jObj [("mcpServers", jObj
      [("s", jObj [("command", Json.str "c"), ("extra", Json.num 1)])])]
    (jsEntries (ClaudeDesktopConverter.extractMCPServers doc)).map Prod.fst = ["s"] ∧
    (ClaudeDesktopConverter.convertToMaster "T" doc).mcpServers.map Prod.fst = ["s"] ∧
    objGet (((jsEntries (ClaudeDesktopConverter.extractMCPServers doc)).lookup "s").getD
      Json.null) "extra" = some (Json.num 1) ∧
    objGet (jObj (removeKey (jsEntries
        (((ClaudeDesktopConverter.convertToMaster "T" doc).mcpServers.lookup "s").getD
          Json.null)) "metadata")) "extra" = none ∧
    ¬ objGet (jObj (removeKey (jsEntries
          (((ClaudeDesktopConverter.convertToMaster "T" doc).mcpServers.lookup "s").getD
            Json.null)) "metadata")) "extra" =
        objGet (((jsEntries (ClaudeDesktopConverter.extractMCPServers doc)).lookup "s").getD
          Json.null) "extra" := by
  refine ⟨rfl, by decide, rfl, rfl, by decide⟩
